import Mathlib

/-!
Verification development for the Antigravity2Api gateway core
(`src/api/upstream.js` and `src/auth/AuthManager.js`).

JavaScript strings are modelled as `String` (with explicit `List Char`
helpers mirroring the string primitives the source uses), JS numbers that
hold millisecond timestamps or indices as `Int`/`Nat`, and the numeric
values flowing through the duration parser as exact rationals `ℚ`
(the source uses IEEE doubles; for the grammar-level properties proved
here the arithmetic is modelled exactly).
-/

deriving instance DecidableEq for Except

/-- Membership lookup in an association list, mirroring `Map.prototype.get`. -/
def alookup {α β : Type} [DecidableEq α] : List (α × β) → α → Option β
  | [], _ => none
  | (k, v) :: rest, a => if k = a then some v else alookup rest a

/-- Mirrors `Map.prototype.set`: replace the binding in place, else append. -/
def aset {α β : Type} [DecidableEq α] : List (α × β) → α → β → List (α × β)
  | [], a, b => [(a, b)]
  | (k, v) :: rest, a, b => if k = a then (a, b) :: rest else (k, v) :: aset rest a b

/-- Pairs every element with its position, mirroring an indexed `for` loop. -/
def enumIdx {α : Type} : Nat → List α → List (Nat × α)
  | _, [] => []
  | i, a :: as => (i, a) :: enumIdx (i + 1) as

/-- Mirrors `Array.prototype.findIndex` (restricted to a Bool predicate). -/
def findIndexJs {α : Type} (p : α → Bool) : List α → Option Nat
  | [] => none
  | a :: as => if p a then some 0 else (findIndexJs p as).map (· + 1)

/-- The whitespace class of the JS regex `\s` and of `String.prototype.trim`
(restricted to the ASCII members; the wider Unicode members never occur in
the strings the gateway handles). -/
def isJsSpace (c : Char) : Bool :=
  c == ' ' || c == '\t' || c == '\n' || c == '\r' || c == '\x0b' || c == '\x0c'

/-- Character-list body of `String.prototype.trim`. -/
def jsTrimChars (l : List Char) : List Char :=
  ((l.dropWhile isJsSpace).reverse.dropWhile isJsSpace).reverse

/-- Models `String.prototype.trim`. -/
def jsStrTrim (s : String) : String := ⟨jsTrimChars s.data⟩

/-- Models `String.prototype.toLowerCase` (ASCII case folding). -/
def jsToLower (s : String) : String := ⟨s.data.map Char.toLower⟩

/-- Helper for `String.prototype.includes`: is `needle` a contiguous infix? -/
def listHasInfix (needle : List Char) : List Char → Bool
  | [] => needle.isEmpty
  | c :: rest => needle.isPrefixOf (c :: rest) || listHasInfix needle rest

/-- Models `String.prototype.includes`. -/
def strIncludes (hay sub : String) : Bool := listHasInfix sub.data hay.data

/-- Models `String.prototype.endsWith`. -/
def strEndsWith (s suffix : String) : Bool :=
  suffix.data.reverse.isPrefixOf s.data.reverse

/-- Models `path.basename`: the final path component (after the last `/`). -/
def jsBasename (s : String) : String :=
  ⟨(s.data.reverse.takeWhile (fun c => !(c == '/'))).reverse⟩

/-! ### Duration parsing (`parseDurationMs`, upstream.js lines 141-162)

The source scans its input with the global regex `([\d.]+)\s*(ms|s|m|h)`,
summing `parseFloat(run) * unitFactor` over all matches and rounding the
total; it returns `null` when the regex never matched.  The scan below
reproduces the regex engine's behaviour on this particular pattern:
at each start position the engine takes the maximal run of `[\d.]`
characters (no shorter run can succeed, because a unit letter can never
follow a digit-or-dot character that the greedy run would have given
back), skips whitespace, and tries the alternatives `ms`, `s`, `m`, `h`
in order; on failure it advances the start position by one. -/

/-- The character class `[\d.]` of the duration regex. -/
def isDurDigitDot (c : Char) : Bool := c.isDigit || c == '.'

/-- The four units of the Google duration grammar. -/
inductive DurUnit : Type
  | ms | s | m | h
deriving DecidableEq, Repr

/-- Millisecond factor of each unit (upstream.js lines 155-158). -/
def unitFactorMs : DurUnit → ℚ
  | .ms => 1
  | .s => 1000
  | .m => 60000
  | .h => 3600000

/-- Matching of the alternation `(ms|s|m|h)` at the front of the input,
in the regex engine's left-to-right alternative order. -/
def matchUnit (l : List Char) : Option (DurUnit × List Char) :=
  match l with
  | 'm' :: rest =>
    match rest with
    | 's' :: rest2 => some (.ms, rest2)
    | _ => some (.m, rest)
  | 's' :: rest => some (.s, rest)
  | 'h' :: rest => some (.h, rest)
  | _ => none

/-- One anchored attempt of `([\d.]+)\s*(ms|s|m|h)` at the current start
position: maximal `[\d.]` run, whitespace skip, then the unit. -/
def tryMatchAt (l : List Char) : Option (List Char × DurUnit × List Char) :=
  match l with
  | [] => none
  | c :: _ =>
    if isDurDigitDot c then
      let num := l.takeWhile isDurDigitDot
      let rest1 := l.dropWhile isDurDigitDot
      let rest2 := rest1.dropWhile isJsSpace
      match matchUnit rest2 with
      | some (u, rest3) => some (num, u, rest3)
      | none => none
    else none

/-- The repeated `re.exec` loop: collect every match left to right,
advancing one position past a failed anchor attempt and jumping past a
successful match.  `fuel` bounds the recursion; any value at least the
length of the input gives the regex loop's behaviour (`scanDurFuel_congr`). -/
def scanDurFuel : Nat → List Char → List (List Char × DurUnit)
  | 0, _ => []
  | _, [] => []
  | fuel + 1, c :: tl =>
    match tryMatchAt (c :: tl) with
    | some (num, u, rest3) => (num, u) :: scanDurFuel fuel rest3
    | none => scanDurFuel fuel tl

/-- All matches of the duration regex over the input. -/
def scanDur (l : List Char) : List (List Char × DurUnit) := scanDurFuel l.length l

/-- Value of a digit string read in base 10. -/
def digitsVal (l : List Char) : ℚ :=
  l.foldl (fun acc c => acc * 10 + ((c.toNat - '0'.toNat : Nat) : ℚ)) 0

/-- Models `parseFloat` on the strings the capture group `[\d.]+` can
produce: leading digits, then an optional `.` plus digits; any further
characters are ignored; `none` models `NaN` (no digit consumed). -/
def parseFloatQ (l : List Char) : Option ℚ :=
  let intPart := l.takeWhile Char.isDigit
  let rest := l.dropWhile Char.isDigit
  match rest with
  | '.' :: rest2 =>
    let fracPart := rest2.takeWhile Char.isDigit
    if intPart = [] ∧ fracPart = [] then none
    else some (digitsVal intPart + digitsVal fracPart / 10 ^ fracPart.length)
  | _ => if intPart = [] then none else some (digitsVal intPart)

/-- Models `Math.round` (round half toward positive infinity). -/
def jsRound (q : ℚ) : Int := ⌊q + 1 / 2⌋

/-- Models `parseDurationMs` (upstream.js lines 141-162): trim, scan all
regex matches, sum `parseFloat(run) * factor` over the matches whose run
parses to a finite value, and round; `none` when nothing matched (which
also covers the `!durationStr` guard, since a falsy string input is the
empty string). -/
def parseDurationMs (s : String) : Option Int :=
  let str := jsStrTrim s
  if str = "" then none
  else
    let comps := scanDur str.data
    if comps.isEmpty then none
    else
      some (jsRound (comps.foldl
        (fun acc nu =>
          match parseFloatQ nu.1 with
          | none => acc
          | some v => acc + v * unitFactorMs nu.2) 0))

/-! ### Upstream dispatcher state (`UpstreamClient`, upstream.js)

`buildBody`, `queryString`, `headers` and the log sinks play no part in the
dispatch decisions and are omitted.  `parseRetryDelayMs(errText)` is carried
on the modelled upstream response as the pre-parsed field `retryMs`
(the parser itself is verified separately as `parseDurationMs`). -/

/-- One per-`(model, accountKey)` quota record.  A field is `none` where the
source stores `null` / a non-finite number (the reads all guard with
`Number.isFinite`).  `remainingFraction`, `resetTime` and `updatedAtMs` are
never read by the dispatch logic and are omitted. -/
structure QuotaEntry where
  remainingPercent : Option Int := none
  resetTimeMs : Option Int := none
  cooldownUntilMs : Option Int := none
deriving DecidableEq, Repr

/-- A cached terminal error per model (`lastErrorByModel` values). -/
structure CachedError where
  status : Nat
  headers : List (String × String)
  bodyText : String
  cachedAtMs : Int
deriving DecidableEq, Repr

/-- A `Response` as the dispatcher returns it to its caller. -/
structure Resp where
  status : Nat
  headers : List (String × String)
  bodyText : String
deriving DecidableEq, Repr

/-- An upstream HTTP response as `httpClient.callV1Internal` yields it.
`retryMs` is the value `this.parseRetryDelayMs` extracts from the body. -/
structure HttpResp where
  status : Nat
  headers : List (String × String)
  bodyText : String
  retryMs : Option Int := none
deriving DecidableEq, Repr

/-- Result of one call to `httpClient.callV1Internal`: either a transport
failure (a rejected promise) or an HTTP response. -/
inductive Outcome : Type
  | netErr (msg : String)
  | resp (r : HttpResp)
deriving DecidableEq, Repr

/-- Observable effects of a dispatch run: outbound upstream HTTP calls and
sleeps, in order. -/
inductive Event : Type
  | httpCall (accountIndex : Nat)
  | slept (ms : Int)
deriving DecidableEq, Repr

/-- The environment a dispatch run interacts with: the outcome of the k-th
upstream HTTP call, the wall clock at the fast-fail gate, and the wall clock
at the start of each attempt-loop iteration. -/
structure Env where
  outcomes : Nat → Outcome
  gateNow : Int
  iterNow : Nat → Int

/-- Dispatcher-visible state: the pool of account keys (credential file base
names, in account-list order), the per-model quota map, the per-model cached
error, and the per-group current indices (kept in range by `AuthManager`). -/
structure DispatchState where
  accounts : List String
  quota : List (String × List (String × QuotaEntry)) := []
  lastError : List (String × CachedError) := []
  currentClaude : Nat := 0
  currentGemini : Nat := 0
deriving DecidableEq, Repr

/-- Errors a dispatch run can throw. -/
inductive ErrKind : Type
  | network (msg : String)
  | allCooldown (modelId : String)
  | noAccounts (modelId : String)
  | credsError (msg : String)
  | exhausted (httpStatus : Nat)
deriving DecidableEq, Repr

/-- What `callV1Internal` hands back: a returned response or a thrown error. -/
inductive CallResult : Type
  | resp (r : Resp)
  | thrown (e : ErrKind)
deriving DecidableEq, Repr

/-- `FIXED_RETRY_DELAY_MS` at its default of 1200 ms (upstream.js line 17). -/
def FIXED_RETRY_DELAY_MS : Int := 1200

/-- Models `getQuotaGroupFromModel` (upstream.js lines 134-139). -/
def getQuotaGroupFromModel (model : String) : String :=
  let m := jsToLower model
  if strIncludes m "claude" then "claude"
  else if strIncludes m "gemini" then "gemini"
  else "gemini"

/-- Models `getCurrentAccountIndex` for the two normalized groups. -/
def getCurrentAccountIndex (st : DispatchState) (group : String) : Nat :=
  if group = "claude" then st.currentClaude else st.currentGemini

/-- The per-model slice of the quota map, `undefined` modelled as `[]`
(lookups through an absent slice all yield `none`, as in the source). -/
def perModelOf (st : DispatchState) (modelId : String) : List (String × QuotaEntry) :=
  (alookup st.quota (jsStrTrim modelId)).getD []

/-- The quota entry for `(model, accountKey)` as dispatch reads see it. -/
def getQuota (st : DispatchState) (modelId accountKey : String) : Option QuotaEntry :=
  alookup (perModelOf st modelId) accountKey

/-- The stored cooldown instant for `(model, accountKey)`. -/
def quotaCooldown (st : DispatchState) (modelId accountKey : String) : Option Int :=
  (getQuota st modelId accountKey).bind QuotaEntry.cooldownUntilMs

/-- Models `setCooldownUntil` (upstream.js lines 354-364): merge
`cooldownUntilMs` into the `(model, accountKey)` entry, creating the model
slice and the entry as needed; a blank model key is ignored. -/
def setCooldownUntil (st : DispatchState) (modelId accountKey : String)
    (cooldownUntilMs : Int) : DispatchState :=
  let key := jsStrTrim modelId
  if key = "" then st
  else
    let perModel := (alookup st.quota key).getD []
    let prev := (alookup perModel accountKey).getD {}
    let entry := { prev with cooldownUntilMs := some cooldownUntilMs }
    { st with quota := aset st.quota key (aset perModel accountKey entry) }

/-- Models `cacheLastErrorResponse` (upstream.js lines 366-388): store the
response's status, headers and body text under the model key. -/
def cacheLastErrorResponse (st : DispatchState) (modelId : String) (r : HttpResp)
    (nowMs : Int) : DispatchState :=
  let key := jsStrTrim modelId
  if key = "" then st
  else { st with lastError := aset st.lastError key ⟨r.status, r.headers, r.bodyText, nowMs⟩ }

/-- The response fabricated from a cached error: `new Response(bodyText,
{status: cached.status || 500, headers: cached.headers})`. -/
def fabricate (c : CachedError) : Resp :=
  ⟨if c.status = 0 then 500 else c.status, c.headers, c.bodyText⟩

/-- Models `getCachedErrorResponse` (upstream.js lines 390-403). -/
def getCachedErrorResponse (st : DispatchState) (modelId : String) : Option Resp :=
  let key := jsStrTrim modelId
  if key = "" then none
  else (alookup st.lastError key).map fabricate

/-- A candidate row of `getAccountPrioritiesForModel` (upstream.js 435-442). -/
structure PriorityItem where
  accountIndex : Nat
  accountKey : String
  remainingPercent : Option Int
  resetTimeMs : Option Int
  cooldownUntilMs : Int
  cooldownActive : Bool
deriving DecidableEq, Repr

/-- The known remaining percent of a candidate, `null` rendered as `none`. -/
def rpOf (perModel : List (String × QuotaEntry)) (accountKey : String) : Option Int :=
  (alookup perModel accountKey).bind QuotaEntry.remainingPercent

/-- Builds one candidate row (upstream.js lines 420-442). -/
def itemOf (perModel : List (String × QuotaEntry)) (now : Int)
    (accountIndex : Nat) (accountKey : String) : PriorityItem :=
  let q := alookup perModel accountKey
  let cd := (q.bind QuotaEntry.cooldownUntilMs).getD 0
  { accountIndex := accountIndex
    accountKey := accountKey
    remainingPercent := q.bind QuotaEntry.remainingPercent
    resetTimeMs := q.bind QuotaEntry.resetTimeMs
    cooldownUntilMs := cd
    cooldownActive := decide (cd > now) }

/-- The non-excluded `(index, accountKey)` pairs of the pool. -/
def candidatePairs (accounts : List String) (excluded : List Nat) : List (Nat × String) :=
  (enumIdx 0 accounts).filter (fun p => decide (¬ p.1 ∈ excluded))

/-- The unsorted candidate rows: non-excluded accounts, with known-zero
candidates dropped unless `includeZero` (upstream.js lines 417-443). -/
def candidateItems (st : DispatchState) (modelId : String) (now : Int)
    (includeZero : Bool) (excluded : List Nat) : List PriorityItem :=
  let perModel := perModelOf st modelId
  ((candidatePairs st.accounts excluded).filter
      (fun p => includeZero || !(rpOf perModel p.2 == some 0))).map
    (fun p => itemOf perModel now p.1 p.2)

/-- The reset-time and index tail of the comparator (upstream.js lines
452-456): `resetTimeMs` ascending with null as plus infinity (`±1` stands
in for the infinite differences the source produces when exactly one side
is null; only the sign is significant), then account index ascending. -/
def cmpResetIdx (a b : PriorityItem) : Int :=
  match a.resetTimeMs, b.resetTimeMs with
  | some x, some y =>
    if x ≠ y then x - y else (a.accountIndex : Int) - (b.accountIndex : Int)
  | some _, none => -1
  | none, some _ => 1
  | none, none => (a.accountIndex : Int) - (b.accountIndex : Int)

/-- The source's sort comparator (upstream.js lines 445-457) as a signed
comparison: active cooldown last, then `remainingPercent` descending with
null as -1, then the reset-time and index tail. -/
def cmpItems (a b : PriorityItem) : Int :=
  if a.cooldownActive ≠ b.cooldownActive then (if a.cooldownActive then 1 else -1)
  else if a.remainingPercent.getD (-1) ≠ b.remainingPercent.getD (-1) then
    b.remainingPercent.getD (-1) - a.remainingPercent.getD (-1)
  else cmpResetIdx a b

/-- The (total, transitive) order the comparator induces. -/
def itemLE (a b : PriorityItem) : Prop := cmpItems a b ≤ 0

instance : DecidableRel itemLE := fun _ _ => inferInstanceAs (Decidable (_ ≤ 0))

/-- Result record of `getAccountPrioritiesForModel`. -/
structure Priorities where
  items : List PriorityItem
  allKnown : Bool
  allZeroKnown : Bool
deriving DecidableEq, Repr

/-- Models `getAccountPrioritiesForModel` (upstream.js lines 405-467): build
the candidate rows, sort them by the comparator, and report whether every
account's quota is known / known-zero (those counters run over every
non-excluded account, before the known-zero filter). -/
def getAccountPrioritiesForModel (st : DispatchState) (modelId : String) (now : Int)
    (includeZero : Bool) (excluded : List Nat) : Priorities :=
  let perModel := perModelOf st modelId
  let cands := candidatePairs st.accounts excluded
  let knownCount := (cands.filter (fun p => (rpOf perModel p.2).isSome)).length
  let nonZeroKnownCount := (cands.filter
      (fun p => match rpOf perModel p.2 with
        | some v => decide (v > 0)
        | none => false)).length
  let allKnown := decide (st.accounts.length > 0) && (knownCount == st.accounts.length)
  { items := List.insertionSort itemLE (candidateItems st modelId now includeZero excluded)
    allKnown := allKnown
    allZeroKnown := allKnown && (nonZeroKnownCount == 0) }

/-! ### The request path (`callV1Internal`, upstream.js lines 480-888) -/

/-- `toResp r` is the response object handed back to the caller. -/
def toResp (r : HttpResp) : Resp := ⟨r.status, r.headers, r.bodyText⟩

/-- Models `Response.ok`: status in the inclusive range 200-299. -/
def respOk (r : HttpResp) : Bool := decide (200 ≤ r.status) && decide (r.status ≤ 299)

/-- The amount added to `now` when a 429 sets the cooldown (upstream.js
line 762): `retryMs != null ? Math.max(0, retryMs) : FIXED_RETRY_DELAY_MS`. -/
def cooldownDelta (retryMs : Option Int) : Int :=
  match retryMs with
  | some r => max 0 r
  | none => FIXED_RETRY_DELAY_MS

/-- What the attempt loop does after exhausting its iterations
(upstream.js lines 863-888): last 429 response, else last network error,
else the cached error, else a synthetic 500 `exhausted` error. -/
def exhaustDisposition (st : DispatchState) (modelId : String)
    (lastResponse : Option HttpResp) (lastNetworkError : Option String) : CallResult :=
  match lastResponse with
  | some r => .resp (toResp r)
  | none =>
    match lastNetworkError with
    | some e => .thrown (.network e)
    | none =>
      match getCachedErrorResponse st modelId with
      | some c => .resp c
      | none => .thrown (.exhausted 500)

/-- Result of the selection step at the top of one loop iteration. -/
inductive SelectOut : Type
  | finish (r : CallResult)
  | pick (accountIndex : Nat)
deriving DecidableEq, Repr

/-- The selection step of one attempt-loop iteration (upstream.js lines
578-602): with a known model, rank the untried candidates; an empty list
breaks to the exhaustion disposition; if every candidate is in active
cooldown return the cached error / last response / last network error or
throw; otherwise pick the top-ranked candidate.  With no model, fall back
to the group's current index. -/
def selectForIteration (st : DispatchState) (modelId quotaGroup : String) (now : Int)
    (tried : List Nat) (lastResponse : Option HttpResp)
    (lastNetworkError : Option String) : SelectOut :=
  if modelId ≠ "" then
    match (getAccountPrioritiesForModel st modelId now false tried).items with
    | [] => .finish (exhaustDisposition st modelId lastResponse lastNetworkError)
    | it0 :: rest =>
      if (it0 :: rest).all PriorityItem.cooldownActive then
        match getCachedErrorResponse st modelId with
        | some c => .finish (.resp c)
        | none =>
          match lastResponse with
          | some r => .finish (.resp (toResp r))
          | none =>
            match lastNetworkError with
            | some e => .finish (.thrown (.network e))
            | none => .finish (.thrown (.allCooldown modelId))
      else .pick it0.accountIndex
  else .pick (getCurrentAccountIndex st quotaGroup)

/-- The account key `getCredentialsByIndex` resolves for an index, or the
error it throws (`AuthManager.js` lines 372-382; the token refresh and
project-id resolution it performs do not influence dispatch decisions). -/
def credsKey (st : DispatchState) (idx : Nat) : Except ErrKind String :=
  if st.accounts.isEmpty then
    .error (.credsError "No accounts available. Please authenticate first.")
  else
    match st.accounts[idx]? with
    | some key => .ok key
    | none => .error (.credsError "Invalid account index")

/-- Output of the response-disposition step: `done = some res` ends the
run with `res`; `done = none` continues the attempt loop.  `nextCall`
indexes the next unconsumed HTTP outcome. -/
structure DispOut where
  done : Option CallResult
  state : DispatchState
  events : List Event
  nextCall : Nat
  lastResponse : Option HttpResp
  lastNetworkError : Option String
deriving DecidableEq, Repr

/-- The response-disposition step of one iteration (upstream.js lines
700-861): 2xx returns; non-429 errors are cached (when a model is known)
and returned; a 429 is cached, recorded as the last response, sets the
`(model, accountKey)` cooldown to `now + cooldownDelta retryMs`, and then
either does the single-account same-account retry or rotates. -/
def dispositionAfterResponse (env : Env) (maxAttempts : Nat) (modelId accountKey : String)
    (accountIndex : Nat) (now : Int) (r : HttpResp) (st : DispatchState) (k : Nat)
    (lastResponse : Option HttpResp) (lastNetworkError : Option String) : DispOut :=
  if respOk r then ⟨some (.resp (toResp r)), st, [], k, lastResponse, lastNetworkError⟩
  else if r.status ≠ 429 then
    let st' := if modelId ≠ "" then cacheLastErrorResponse st modelId r now else st
    ⟨some (.resp (toResp r)), st', [], k, lastResponse, lastNetworkError⟩
  else
    let lr := some r
    let st1 := if modelId ≠ "" then cacheLastErrorResponse st modelId r now else st
    let retryMs := r.retryMs
    let st2 :=
      if modelId ≠ "" then
        setCooldownUntil st1 modelId accountKey (now + cooldownDelta retryMs)
      else st1
    if maxAttempts = 1 then
      match retryMs with
      | some rv =>
        if rv > 5000 then ⟨some (.resp (toResp r)), st2, [], k, lr, lastNetworkError⟩
        else
          sameAccountRetry st2 (max 0 (rv + 200))
      | none => sameAccountRetry st2 FIXED_RETRY_DELAY_MS
    else
      match retryMs with
      | none => ⟨none, st2, [.slept FIXED_RETRY_DELAY_MS], k, lr, lastNetworkError⟩
      | some _ => ⟨none, st2, [], k, lr, lastNetworkError⟩
where
  /-- Sleep, then retry the same account once and return whatever that
  produces (upstream.js lines 782-840). -/
  sameAccountRetry (st2 : DispatchState) (delay : Int) : DispOut :=
    match env.outcomes k with
    | .netErr m2 =>
      ⟨some (.thrown (.network m2)), st2, [.slept delay, .httpCall accountIndex], k + 1,
        some r, some m2⟩
    | .resp rr =>
      if respOk rr then
        ⟨some (.resp (toResp rr)), st2, [.slept delay, .httpCall accountIndex], k + 1,
          some r, lastNetworkError⟩
      else
        let st3 := if modelId ≠ "" then cacheLastErrorResponse st2 modelId rr now else st2
        ⟨some (.resp (toResp rr)), st3, [.slept delay, .httpCall accountIndex], k + 1,
          if rr.status = 429 then some rr else some r, lastNetworkError⟩

/-- Combined output of one run of the attempt loop. -/
structure LoopOut where
  result : CallResult
  state : DispatchState
  events : List Event
deriving DecidableEq, Repr

/-- The attempt loop (upstream.js lines 574-888), structurally recursive
on the remaining iteration budget: select an account, fetch its key, issue
the HTTP call (the single-account network-error path sleeps and retries
the same account before the common disposition), and either finish or
recurse with the updated state. -/
def runAttempts (env : Env) (maxAttempts : Nat) (modelId quotaGroup : String) :
    Nat → Nat → List Nat → DispatchState → Nat → Option HttpResp → Option String → LoopOut
  | 0, _, _, st, _, lr, ln => ⟨exhaustDisposition st modelId lr ln, st, []⟩
  | fuel + 1, iter, tried, st, k, lr, ln =>
    match selectForIteration st modelId quotaGroup (env.iterNow iter) tried lr ln with
    | .finish res => ⟨res, st, []⟩
    | .pick idx =>
      let tried' := idx :: tried
      match credsKey st idx with
      | .error e => ⟨.thrown e, st, []⟩
      | .ok accountKey =>
        match env.outcomes k with
        | .netErr m =>
          if maxAttempts = 1 then
            match env.outcomes (k + 1) with
            | .netErr m2 =>
              ⟨.thrown (.network m2), st,
                [.httpCall idx, .slept FIXED_RETRY_DELAY_MS, .httpCall idx]⟩
            | .resp r2 =>
              let d := dispositionAfterResponse env maxAttempts modelId accountKey idx
                  (env.iterNow iter) r2 st (k + 2) lr ln
              match d.done with
              | some res =>
                ⟨res, d.state,
                  .httpCall idx :: .slept FIXED_RETRY_DELAY_MS :: .httpCall idx :: d.events⟩
              | none =>
                let rest := runAttempts env maxAttempts modelId quotaGroup fuel (iter + 1)
                    tried' d.state d.nextCall d.lastResponse d.lastNetworkError
                ⟨rest.result, rest.state,
                  (.httpCall idx :: .slept FIXED_RETRY_DELAY_MS :: .httpCall idx :: d.events)
                    ++ rest.events⟩
          else
            let rest := runAttempts env maxAttempts modelId quotaGroup fuel (iter + 1)
                tried' st (k + 1) lr (some m)
            ⟨rest.result, rest.state,
              .httpCall idx :: .slept FIXED_RETRY_DELAY_MS :: rest.events⟩
        | .resp r =>
          let d := dispositionAfterResponse env maxAttempts modelId accountKey idx
              (env.iterNow iter) r st (k + 1) lr ln
          match d.done with
          | some res => ⟨res, d.state, .httpCall idx :: d.events⟩
          | none =>
            let rest := runAttempts env maxAttempts modelId quotaGroup fuel (iter + 1)
                tried' d.state d.nextCall d.lastResponse d.lastNetworkError
            ⟨rest.result, rest.state, (.httpCall idx :: d.events) ++ rest.events⟩

/-- Models `callV1Internal` (upstream.js lines 480-888).  The initial-sweep
pre-wait only affects timing and is not modelled.  When the model is known
and every account is known-zero for it, the fast-fail gate returns the
cached error, or makes one probe attempt against the top-ranked candidate
(with zeros included) to obtain one; otherwise the attempt loop runs with
`maxAttempts = max(1, accountCount)`. -/
def callV1Internal (env : Env) (st : DispatchState) (group? model? : Option String) :
    LoopOut :=
  let groupSource :=
    match group? with
    | some g => if g = "" then model?.getD "" else g
    | none => model?.getD ""
  let quotaGroup := getQuotaGroupFromModel groupSource
  let modelId := jsStrTrim (model?.getD "")
  let maxAttempts := max 1 st.accounts.length
  if modelId ≠ "" then
    let snapshot := getAccountPrioritiesForModel st modelId env.gateNow true []
    if snapshot.allZeroKnown then
      match getCachedErrorResponse st modelId with
      | some c => ⟨.resp c, st, []⟩
      | none =>
        match snapshot.items with
        | [] => ⟨.thrown (.noAccounts modelId), st, []⟩
        | pick :: _ =>
          match credsKey st pick.accountIndex with
          | .error e => ⟨.thrown e, st, []⟩
          | .ok _ =>
            match env.outcomes 0 with
            | .netErr m => ⟨.thrown (.network m), st, [.httpCall pick.accountIndex]⟩
            | .resp r =>
              let st' :=
                if respOk r then st else cacheLastErrorResponse st modelId r env.gateNow
              ⟨.resp (toResp r), st', [.httpCall pick.accountIndex]⟩
    else runAttempts env maxAttempts modelId quotaGroup maxAttempts 0 [] st 0 none none
  else runAttempts env maxAttempts modelId quotaGroup maxAttempts 0 [] st 0 none none

/-! ### Account and credential manager (`AuthManager.js`)

File-system effects (unlink, atomic write) and timer cancellation do not
influence the managed state beyond the fields modelled here.  The
in-flight promise slots are modelled as optional operation identifiers. -/

/-- The credential record fields the core reads and writes. -/
structure Creds where
  access_token : String
  refresh_token : String
  expiry_date : Int
  token_type : Option String := none
  scope : Option String := none
  email : Option String := none
  projectId : Option String := none
  projectIdResolvedAt : Option String := none
deriving DecidableEq, Repr

/-- One loaded account: its credential file path, the mutable credential
record, and the transient in-flight handles (`refreshPromise`,
`projectPromise`) and refresh-timer handle, as operation identifiers. -/
structure Account where
  filePath : String
  creds : Creds
  refreshPromise : Option Nat := none
  projectPromise : Option Nat := none
  refreshTimer : Option Nat := none
deriving DecidableEq, Repr

/-- The manager's state: the account list and the per-group current index
(JS numbers; the adjustment arithmetic is over `Int`). -/
structure AuthState where
  accounts : List Account
  currentClaude : Int := 0
  currentGemini : Int := 0
deriving DecidableEq, Repr

/-- Models `isValidProjectId` (AuthManager.js lines 15-19). -/
def isValidProjectId (p : Option String) : Bool :=
  match p with
  | some s => !(jsStrTrim s == "")
  | none => false

/-- Models `hasProjectIdRepairMarker` (AuthManager.js lines 21-26); the
marker is persisted as an ISO string (the numeric form the guard also
accepts never occurs in records this code writes). -/
def hasProjectIdRepairMarker (c : Creds) : Bool :=
  match c.projectIdResolvedAt with
  | some s => !(jsStrTrim s == "")
  | none => false

/-- Models `sanitizeCredentialFileName` (AuthManager.js lines 28-38). -/
def sanitizeCredentialFileName (fileName : String) : Except String String :=
  let name := jsStrTrim fileName
  if name = "" then .error "file name is required"
  else if strIncludes name "/" || strIncludes name "\\" || strIncludes name ".." then
    .error "invalid file name"
  else if !(strEndsWith name ".json") then
    .error "invalid credentials file (must be .json)"
  else .ok name

/-- The index-adjustment a deletion at slot `idx` applies to one group's
current index (AuthManager.js lines 141-152). -/
def adjustIndexAfterDelete (newLen : Nat) (idx : Nat) (current : Int) : Int :=
  if newLen = 0 then 0
  else if (idx : Int) < current then max 0 (current - 1)
  else if (idx : Int) = current then min current ((newLen : Int) - 1)
  else current

/-- Models `deleteAccountByFile` (AuthManager.js lines 122-155): sanitize,
locate the account by file base name (returning `false` with the state
untouched when absent), remove the slot (its refresh timer is cancelled
with it), and adjust both groups' current indices. -/
def deleteAccountByFile (st : AuthState) (fileName : String) :
    Except String (Bool × AuthState) :=
  match sanitizeCredentialFileName fileName with
  | .error e => .error e
  | .ok safeName =>
    match findIndexJs (fun a => jsBasename a.filePath == safeName) st.accounts with
    | none => .ok (false, st)
    | some idx =>
      let accounts' := st.accounts.eraseIdx idx
      .ok (true,
        { accounts := accounts'
          currentClaude := adjustIndexAfterDelete accounts'.length idx st.currentClaude
          currentGemini := adjustIndexAfterDelete accounts'.length idx st.currentGemini })

/-- The body of the coalesced refresh (AuthManager.js lines 578-608):
`httpResult` is the token endpoint's answer, `fetchedPid` the answer of
`fetchProjectId` when one is needed, `resolvedAt` the ISO timestamp the
body would stamp.  Preserves `email`, carries a verified `projectId`
forward, and otherwise requires a freshly fetched valid one. -/
def refreshOutcome (old : Creds) (httpResult : Except String Creds)
    (fetchedPid : Except String String) (resolvedAt : String) : Except String Creds :=
  match httpResult with
  | .error e => .error e
  | .ok data =>
    let d1 := if old.email.isSome then { data with email := old.email } else data
    if isValidProjectId old.projectId && hasProjectIdRepairMarker old then
      .ok { d1 with projectId := some (jsStrTrim (old.projectId.getD ""))
                    projectIdResolvedAt := old.projectIdResolvedAt }
    else
      match fetchedPid with
      | .error e => .error e
      | .ok pid =>
        if isValidProjectId (some pid) then
          .ok { d1 with projectId := some pid, projectIdResolvedAt := some resolvedAt }
        else .error "Failed to obtain valid projectId during refresh"

/-- The synchronous head of `refreshToken` (AuthManager.js lines 573-577):
a present `refreshPromise` is returned to the caller unchanged and no new
refresh starts; otherwise the slot is filled with the new operation.
Returns (account after the call, the promise the caller receives, whether
a new refresh was started). -/
def refreshTokenStart (acc : Account) (opId : Nat) : Account × Nat × Bool :=
  match acc.refreshPromise with
  | some p => (acc, p, false)
  | none => ({ acc with refreshPromise := some opId }, opId, true)

/-- Completion of the refresh body (AuthManager.js lines 578-612): on
success the credentials are replaced and the refresh timer re-armed
(`timerId`); in every case the `finally` clears `refreshPromise`. -/
def refreshTokenSettle (acc : Account) (httpResult : Except String Creds)
    (fetchedPid : Except String String) (resolvedAt : String) (timerId : Nat) : Account :=
  let acc' :=
    match refreshOutcome acc.creds httpResult fetchedPid resolvedAt with
    | .ok data => { acc with creds := data, refreshTimer := some timerId }
    | .error _ => acc
  { acc' with refreshPromise := none }

/-- Models `ensureProjectId` (AuthManager.js lines 316-342) on the
credential record: short-circuit when verified, otherwise adopt a freshly
fetched valid id (persisting it) or propagate the failure. -/
def ensureProjectId (c : Creds) (fetchedPid : Except String String)
    (resolvedAt : String) : Except String (String × Creds) :=
  if isValidProjectId c.projectId && hasProjectIdRepairMarker c then
    .ok (jsStrTrim (c.projectId.getD ""), c)
  else
    match fetchedPid with
    | .error e => .error e
    | .ok pid =>
      if isValidProjectId (some pid) then
        .ok (pid, { c with projectId := some pid, projectIdResolvedAt := some resolvedAt })
      else .error "Failed to obtain valid projectId"

/-- Models `getAccessTokenByIndex` (AuthManager.js lines 406-435).  An
in-flight refresh, if any, is awaited by the source before the expiry
check; it is modelled as already settled into `creds`.  When
`creds.expiry_date < now` the refresh (modelled by its oracle inputs) is
performed and awaited; its token is returned and the account updated. -/
def getAccessTokenByIndex (st : AuthState) (index : Int) (now : Int)
    (httpResult : Except String Creds) (fetchedPid : Except String String)
    (resolvedAt : String) (timerId : Nat) : Except String (String × AuthState) :=
  if st.accounts.isEmpty then .error "No accounts available. Please authenticate first."
  else if !(decide (0 ≤ index) && decide (index < (st.accounts.length : Int))) then
    .error "Invalid account index"
  else
    match st.accounts[index.toNat]? with
    | none => .error "Invalid account index"
    | some account =>
      if account.creds.expiry_date < now then
        match refreshOutcome account.creds httpResult fetchedPid resolvedAt with
        | .error e => .error e
        | .ok data =>
          let account' :=
            { account with creds := data, refreshPromise := none, refreshTimer := some timerId }
          .ok (data.access_token,
            { st with accounts := st.accounts.set index.toNat account' })
      else .ok (account.creds.access_token, st)

/-- Models `getCredentialsByIndex` (AuthManager.js lines 372-404): the same
refresh-on-expiry step as `getAccessTokenByIndex`, followed by
`ensureProjectId`; returns the access token and the project id. -/
def getCredentialsByIndex (st : AuthState) (index : Int) (now : Int)
    (httpResult : Except String Creds) (fetchedPid : Except String String)
    (resolvedAt : String) (timerId : Nat) : Except String (String × String × AuthState) :=
  if st.accounts.isEmpty then .error "No accounts available. Please authenticate first."
  else if !(decide (0 ≤ index) && decide (index < (st.accounts.length : Int))) then
    .error "Invalid account index"
  else
    match st.accounts[index.toNat]? with
    | none => .error "Invalid account index"
    | some account =>
      let afterRefresh : Except String Account :=
        if account.creds.expiry_date < now then
          match refreshOutcome account.creds httpResult fetchedPid resolvedAt with
          | .error e => .error e
          | .ok data =>
            .ok { account with creds := data, refreshPromise := none,
                               refreshTimer := some timerId }
        else .ok account
      match afterRefresh with
      | .error e => .error e
      | .ok acc1 =>
        match ensureProjectId acc1.creds fetchedPid resolvedAt with
        | .error e => .error e
        | .ok (pid, creds') =>
          let acc2 := { acc1 with creds := creds' }
          .ok (creds'.access_token, pid,
            { st with accounts := st.accounts.set index.toNat acc2 })

/-! ### Spec-side definitions

These definitions follow the wording of the specification (not the
source); the theorems below compare the source-derived functions against
them. -/

/-- The "sooner reset wins, unknown is plus infinity" strict order of the
specification's criterion (3). -/
def resetLT : Option Int → Option Int → Prop
  | some x, some y => x < y
  | some _, none => True
  | none, _ => False

/-- The candidate order the specification describes for
`getAccountPrioritiesForModel`: (1) active-cooldown candidates last;
(2) then `remainingPercent` descending with unknown as -1; (3) then
`resetTimeMs` ascending with unknown as plus infinity; (4) then account
index ascending. -/
def specLE (a b : PriorityItem) : Prop :=
  (a.cooldownActive = false ∧ b.cooldownActive = true) ∨
    (a.cooldownActive = b.cooldownActive ∧
      (b.remainingPercent.getD (-1) < a.remainingPercent.getD (-1) ∨
        (a.remainingPercent.getD (-1) = b.remainingPercent.getD (-1) ∧
          (resetLT a.resetTimeMs b.resetTimeMs ∨
            (a.resetTimeMs = b.resetTimeMs ∧ a.accountIndex ≤ b.accountIndex)))))

/-- One well-formed component of the specification's duration grammar:
digits, an optional decimal part, then a unit. -/
structure DurComponent where
  intDigits : List Char
  fracDigits : Option (List Char)
  unit : DurUnit

/-- Well-formedness of a grammar component: a nonempty integer digit run
and digits in the optional fractional part. -/
def DurComponent.WF (c : DurComponent) : Prop :=
  c.intDigits ≠ [] ∧ (∀ ch ∈ c.intDigits, ch.isDigit = true) ∧
    ∀ l, c.fracDigits = some l → ∀ ch ∈ l, ch.isDigit = true

/-- The characters of a unit as they appear in a duration string. -/
def unitChars : DurUnit → List Char
  | .ms => ['m', 's']
  | .s => ['s']
  | .m => ['m']
  | .h => ['h']

/-- The number part of a rendered component. -/
def DurComponent.numChars (c : DurComponent) : List Char :=
  c.intDigits ++ (match c.fracDigits with
    | none => []
    | some f => '.' :: f)

/-- A component rendered as written in a duration string. -/
def DurComponent.render (c : DurComponent) : List Char :=
  c.numChars ++ unitChars c.unit

/-- Concatenation of rendered components, e.g. `1h16m0.667923083s`. -/
def renderAll (cs : List DurComponent) : List Char := (cs.map DurComponent.render).flatten

/-- The exact numeric value of a component's number part. -/
def DurComponent.numValue (c : DurComponent) : ℚ :=
  digitsVal c.intDigits + match c.fracDigits with
    | none => 0
    | some f => digitsVal f / 10 ^ f.length

/-- The exact millisecond value of one component. -/
def DurComponent.valueMs (c : DurComponent) : ℚ :=
  c.numValue * unitFactorMs c.unit

/-! ### Association-list and list lemmas -/

theorem alookup_aset_self {α β : Type} [DecidableEq α] (l : List (α × β)) (a : α) (b : β) :
    alookup (aset l a b) a = some b := by
  induction l with
  | nil => simp [aset, alookup]
  | cons kv rest ih =>
    obtain ⟨k, v⟩ := kv
    by_cases h : k = a
    · simp [aset, alookup, h]
    · simp [aset, alookup, h, ih]

theorem alookup_aset_ne {α β : Type} [DecidableEq α] (l : List (α × β)) (a a' : α) (b : β)
    (h : a' ≠ a) : alookup (aset l a b) a' = alookup l a' := by
  induction l with
  | nil =>
    simp only [aset, alookup]
    rw [if_neg (fun hh => h hh.symm)]
  | cons kv rest ih =>
    obtain ⟨k, v⟩ := kv
    simp only [aset]
    by_cases hk : k = a
    · subst hk
      rw [if_pos rfl]
      simp only [alookup]
      rw [if_neg (fun hh => h hh.symm), if_neg (fun hh => h hh.symm)]
    · rw [if_neg hk]
      simp only [alookup]
      by_cases hk' : k = a'
      · rw [if_pos hk', if_pos hk']
      · rw [if_neg hk', if_neg hk', ih]

theorem enumIdx_length {α : Type} (j : Nat) (l : List α) :
    (enumIdx j l).length = l.length := by
  induction l generalizing j with
  | nil => rfl
  | cons a as ih => simp [enumIdx, ih]

theorem mem_enumIdx {α : Type} {p : Nat × α} {j : Nat} {l : List α}
    (h : p ∈ enumIdx j l) : j ≤ p.1 ∧ l[p.1 - j]? = some p.2 := by
  induction l generalizing j with
  | nil => simp [enumIdx] at h
  | cons a as ih =>
    simp only [enumIdx, List.mem_cons] at h
    rcases h with h | h
    · subst h
      simp
    · obtain ⟨h1, h2⟩ := ih h
      refine ⟨by omega, ?_⟩
      have : p.1 - j = (p.1 - (j + 1)) + 1 := by omega
      rw [this]
      simpa using h2

theorem mem_enumIdx_snd {α : Type} {p : Nat × α} {j : Nat} {l : List α}
    (h : p ∈ enumIdx j l) : p.2 ∈ l := by
  induction l generalizing j with
  | nil => simp [enumIdx] at h
  | cons a as ih =>
    simp only [enumIdx, List.mem_cons] at h
    rcases h with h | h
    · subst h; simp
    · exact List.mem_cons_of_mem _ (ih h)

theorem findIndexJs_eq_none {α : Type} (p : α → Bool) (l : List α)
    (h : ∀ a ∈ l, p a = false) : findIndexJs p l = none := by
  induction l with
  | nil => rfl
  | cons a as ih =>
    simp only [findIndexJs, h a (List.mem_cons_self a as)]
    simp [ih (fun x hx => h x (List.mem_cons_of_mem a hx))]

theorem findIndexJs_lt_length {α : Type} {p : α → Bool} {l : List α} {i : Nat}
    (h : findIndexJs p l = some i) : i < l.length := by
  induction l generalizing i with
  | nil => simp [findIndexJs] at h
  | cons a as ih =>
    simp only [findIndexJs] at h
    by_cases hp : p a
    · rw [if_pos hp] at h
      simp only [Option.some.injEq] at h
      simp [← h]
    · rw [if_neg hp] at h
      obtain ⟨j, hj, hji⟩ := Option.map_eq_some'.mp h
      have := ih hj
      simp only [List.length_cons]
      omega

theorem getElem?_eraseIdx_own {α : Type} (l : List α) (i j : Nat) :
    (l.eraseIdx i)[j]? = if j < i then l[j]? else l[j + 1]? := by
  induction l generalizing i j with
  | nil => simp [List.eraseIdx]
  | cons a as ih =>
    cases i with
    | zero => simp [List.eraseIdx]
    | succ i' =>
      cases j with
      | zero => simp [List.eraseIdx]
      | succ j' =>
        simp only [List.eraseIdx, List.getElem?_cons_succ]
        rw [ih]
        simp only [Nat.succ_lt_succ_iff]

theorem length_eraseIdx_own {α : Type} {l : List α} {i : Nat} (h : i < l.length) :
    (l.eraseIdx i).length = l.length - 1 := by
  induction l generalizing i with
  | nil => simp at h
  | cons a as ih =>
    cases i with
    | zero => simp [List.eraseIdx]
    | succ i' =>
      simp only [List.length_cons, Nat.succ_lt_succ_iff] at h
      cases as with
      | nil => simp at h
      | cons b bs => simp [List.eraseIdx, ih h]

/-! ### Claims about `deleteAccountByFile` (C7, C10) -/

/-- Case analysis of the index adjustment combined with the slot removal;
`idx` is the removed slot, `c` one group's current index. -/
theorem adjustIndexAfterDelete_cases {α : Type} (l : List α) (idx : Nat) (c : Int)
    (hidx : idx < l.length) (h0 : 0 ≤ c) (h1 : c < (l.length : Int)) :
    (c < (idx : Int) → adjustIndexAfterDelete (l.eraseIdx idx).length idx c = c) ∧
    ((idx : Int) < c → adjustIndexAfterDelete (l.eraseIdx idx).length idx c = c - 1) ∧
    (c = (idx : Int) ∧ 2 ≤ l.length →
      adjustIndexAfterDelete (l.eraseIdx idx).length idx c =
        min c (((l.eraseIdx idx).length : Int) - 1)) ∧
    (c ≠ (idx : Int) →
      (l.eraseIdx idx)[(adjustIndexAfterDelete (l.eraseIdx idx).length idx c).toNat]? =
        l[c.toNat]?) := by
  have hlen : (l.eraseIdx idx).length = l.length - 1 := length_eraseIdx_own hidx
  refine ⟨?_, ?_, ?_, ?_⟩
  · intro hlt
    unfold adjustIndexAfterDelete
    rw [if_neg (by omega), if_neg (by omega), if_neg (by omega)]
  · intro hlt
    unfold adjustIndexAfterDelete
    rw [if_neg (by omega), if_pos (by omega)]
    omega
  · rintro ⟨heq, hlen2⟩
    unfold adjustIndexAfterDelete
    rw [if_neg (by omega), if_neg (by omega), if_pos (by omega)]
  · intro hne
    rcases lt_or_gt_of_ne hne with hlt | hgt
    · have hadj : adjustIndexAfterDelete (l.eraseIdx idx).length idx c = c := by
        unfold adjustIndexAfterDelete
        rw [if_neg (by omega), if_neg (by omega), if_neg (by omega)]
      rw [hadj, getElem?_eraseIdx_own, if_pos (by omega)]
    · have hadj : adjustIndexAfterDelete (l.eraseIdx idx).length idx c = c - 1 := by
        unfold adjustIndexAfterDelete
        rw [if_neg (by omega), if_pos (by omega)]
        omega
      rw [hadj, getElem?_eraseIdx_own, if_neg (by omega)]
      congr 1
      omega

/-- C7: deleting the account at slot `idx` leaves each group's current
index unchanged when it was below `idx`, decrements it by one when it was
above `idx`, clamps it to the last remaining valid slot when it was `idx`
itself, and never makes the pointer skip over a surviving account (when
the current slot survives, the pointer still addresses that account). -/
theorem c7_delete_index_adjust (st : AuthState) (fileName safeName : String) (idx : Nat)
    (st' : AuthState)
    (hsan : sanitizeCredentialFileName fileName = .ok safeName)
    (hfind : findIndexJs (fun a => jsBasename a.filePath == safeName) st.accounts = some idx)
    (hdel : deleteAccountByFile st fileName = .ok (true, st'))
    (hc0 : 0 ≤ st.currentClaude) (hc1 : st.currentClaude < (st.accounts.length : Int))
    (hg0 : 0 ≤ st.currentGemini) (hg1 : st.currentGemini < (st.accounts.length : Int)) :
    ((st.currentClaude < (idx : Int) → st'.currentClaude = st.currentClaude) ∧
      ((idx : Int) < st.currentClaude → st'.currentClaude = st.currentClaude - 1) ∧
      (st.currentClaude = (idx : Int) ∧ 2 ≤ st.accounts.length →
        st'.currentClaude = min st.currentClaude ((st'.accounts.length : Int) - 1)) ∧
      (st.currentClaude ≠ (idx : Int) →
        st'.accounts[st'.currentClaude.toNat]? = st.accounts[st.currentClaude.toNat]?)) ∧
    ((st.currentGemini < (idx : Int) → st'.currentGemini = st.currentGemini) ∧
      ((idx : Int) < st.currentGemini → st'.currentGemini = st.currentGemini - 1) ∧
      (st.currentGemini = (idx : Int) ∧ 2 ≤ st.accounts.length →
        st'.currentGemini = min st.currentGemini ((st'.accounts.length : Int) - 1)) ∧
      (st.currentGemini ≠ (idx : Int) →
        st'.accounts[st'.currentGemini.toNat]? = st.accounts[st.currentGemini.toNat]?)) := by
  have hidx : idx < st.accounts.length := findIndexJs_lt_length hfind
  unfold deleteAccountByFile at hdel
  simp only [hsan] at hdel
  simp only [hfind] at hdel
  simp only [Except.ok.injEq, Prod.mk.injEq, true_and] at hdel
  obtain ⟨hacc, hcl, hge⟩ :
      st'.accounts = st.accounts.eraseIdx idx ∧
      st'.currentClaude = adjustIndexAfterDelete (st.accounts.eraseIdx idx).length idx
        st.currentClaude ∧
      st'.currentGemini = adjustIndexAfterDelete (st.accounts.eraseIdx idx).length idx
        st.currentGemini := by
    rw [← hdel]
    exact ⟨rfl, rfl, rfl⟩
  obtain ⟨a1, a2, a3, a4⟩ :=
    adjustIndexAfterDelete_cases st.accounts idx st.currentClaude hidx hc0 hc1
  obtain ⟨b1, b2, b3, b4⟩ :=
    adjustIndexAfterDelete_cases st.accounts idx st.currentGemini hidx hg0 hg1
  rw [hacc, hcl, hge]
  exact ⟨⟨a1, a2, fun h => a3 h, a4⟩, ⟨b1, b2, fun h => b3 h, b4⟩⟩

/-- Plain credentials used in concrete instances. -/
def credsW (tok : String) : Creds :=
  { access_token := tok
    refresh_token := "r"
    expiry_date := 0 }

/-- A two-account pool with the claude pointer on the last slot. -/
def authStW : AuthState :=
  { accounts :=
      [{ filePath := "auths/a.json", creds := credsW "t0" }
       , { filePath := "auths/b.json", creds := credsW "t1" }]
    currentClaude := 1
    currentGemini := 0 }

/-- The state `deleteAccountByFile authStW "b.json"` produces. -/
def authStWAfter : AuthState :=
  { accounts := [{ filePath := "auths/a.json", creds := credsW "t0" }]
    currentClaude := 0
    currentGemini := 0 }

/-- Concrete instance of C7: deleting the current (and last) slot of a
two-account pool clamps the claude index to the new last slot, and the
gemini pointer still addresses the surviving account. -/
theorem c7_delete_index_adjust_witness :
    authStWAfter.currentClaude
        = min authStW.currentClaude ((authStWAfter.accounts.length : Int) - 1) ∧
      authStWAfter.accounts[authStWAfter.currentGemini.toNat]?
        = authStW.accounts[authStW.currentGemini.toNat]? := by
  have h := c7_delete_index_adjust authStW "b.json" "b.json" 1 authStWAfter (by decide)
    (by decide) (by decide) (by decide) (by decide) (by decide) (by decide)
  exact ⟨h.1.2.2.1 ⟨by decide, by decide⟩, h.2.2.2.2 (by decide)⟩

/-- C10: when the sanitized file name matches no loaded account, the call
reports `false` and returns the manager state exactly as it was. -/
theorem c10_delete_no_match (st : AuthState) (fileName safeName : String)
    (hsan : sanitizeCredentialFileName fileName = .ok safeName)
    (hnone : ∀ a ∈ st.accounts, jsBasename a.filePath ≠ safeName) :
    deleteAccountByFile st fileName = .ok (false, st) := by
  have hf : findIndexJs (fun a => jsBasename a.filePath == safeName) st.accounts = none :=
    findIndexJs_eq_none _ _ (fun a ha => by simp [hnone a ha])
  unfold deleteAccountByFile
  simp only [hsan, hf]

/-- Concrete instance of C10. -/
theorem c10_delete_no_match_witness :
    deleteAccountByFile authStWAfter "b.json" = .ok (false, authStWAfter) :=
  c10_delete_no_match _ "b.json" "b.json" (by decide) (by decide)

/-! ### Claim about refresh coalescing (C8) -/

/-- C8: a caller of `refreshToken` that finds an in-flight refresh gets
that same promise back with the account untouched and no second refresh
started; settling the refresh (success or failure) clears the in-flight
slot; and a caller after settlement starts a fresh refresh. -/
theorem c8_refresh_coalescing :
    (∀ (acc : Account) (p opId : Nat), acc.refreshPromise = some p →
      refreshTokenStart acc opId = (acc, p, false)) ∧
    (∀ (acc : Account) (httpResult : Except String Creds)
        (fetchedPid : Except String String) (resolvedAt : String) (timerId : Nat),
      (refreshTokenSettle acc httpResult fetchedPid resolvedAt timerId).refreshPromise
        = none) ∧
    (∀ (acc : Account) (httpResult : Except String Creds)
        (fetchedPid : Except String String) (resolvedAt : String) (timerId opId : Nat),
      (refreshTokenStart (refreshTokenSettle acc httpResult fetchedPid resolvedAt timerId)
          opId).2.2 = true ∧
        (refreshTokenStart (refreshTokenSettle acc httpResult fetchedPid resolvedAt timerId)
            opId).1.refreshPromise = some opId) := by
  have hsettle : ∀ (acc : Account) (httpResult : Except String Creds)
      (fetchedPid : Except String String) (resolvedAt : String) (timerId : Nat),
      (refreshTokenSettle acc httpResult fetchedPid resolvedAt timerId).refreshPromise
        = none := by
    intro acc httpResult fetchedPid resolvedAt timerId
    unfold refreshTokenSettle
    cases refreshOutcome acc.creds httpResult fetchedPid resolvedAt <;> rfl
  refine ⟨?_, hsettle, ?_⟩
  · intro acc p opId h
    unfold refreshTokenStart
    rw [h]
  · intro acc httpResult fetchedPid resolvedAt timerId opId
    unfold refreshTokenStart
    rw [hsettle acc httpResult fetchedPid resolvedAt timerId]
    exact ⟨rfl, rfl⟩

/-- An account with an in-flight refresh, for the C8 instance. -/
def accInFlightW : Account :=
  { filePath := "auths/a.json"
    creds := credsW "t"
    refreshPromise := some 5 }

/-- Concrete instance of C8: joining an in-flight refresh, and the slot
being clear after a failed settlement. -/
theorem c8_refresh_coalescing_witness :
    refreshTokenStart accInFlightW 9 = (accInFlightW, 5, false) ∧
      (refreshTokenSettle accInFlightW (.error "boom") (.error "no") "2026-01-01"
          3).refreshPromise = none :=
  ⟨c8_refresh_coalescing.1 accInFlightW 5 9 rfl,
    c8_refresh_coalescing.2.1 accInFlightW (.error "boom") (.error "no") "2026-01-01" 3⟩

/-! ### Claims about the attempt loop's terminal behaviour (C4, C5) -/

/-- C5: when the attempt loop completes all its iterations without
returning, the outcome is chosen in this order: the last 429 response if
one was observed; else the last network error is thrown; else the cached
error response for the model is returned if one exists; else an
`exhausted` error with synthetic status 500 is thrown. -/
theorem c5_loop_exhaustion (env : Env) (maxAttempts : Nat) (modelId quotaGroup : String)
    (iter : Nat) (tried : List Nat) (st : DispatchState) (k : Nat)
    (lr : Option HttpResp) (ln : Option String) :
    runAttempts env maxAttempts modelId quotaGroup 0 iter tried st k lr ln
        = ⟨exhaustDisposition st modelId lr ln, st, []⟩ ∧
      (∀ r, lr = some r → exhaustDisposition st modelId lr ln = .resp (toResp r)) ∧
      (∀ e, lr = none → ln = some e →
        exhaustDisposition st modelId lr ln = .thrown (.network e)) ∧
      (∀ c, lr = none → ln = none → getCachedErrorResponse st modelId = some c →
        exhaustDisposition st modelId lr ln = .resp c) ∧
      (lr = none → ln = none → getCachedErrorResponse st modelId = none →
        exhaustDisposition st modelId lr ln = .thrown (.exhausted 500)) := by
  refine ⟨rfl, ?_, ?_, ?_, ?_⟩
  · intro r h
    subst h
    rfl
  · intro e h1 h2
    subst h1; subst h2
    rfl
  · intro c h1 h2 h3
    subst h1; subst h2
    unfold exhaustDisposition
    rw [h3]
  · intro h1 h2 h3
    subst h1; subst h2
    unfold exhaustDisposition
    rw [h3]

/-- The cached error used in concrete dispatcher instances. -/
def cachedW : CachedError := ⟨429, [("x", "y")], "quota", 7⟩

/-- A pool whose two accounts are both known-zero for model `m`, with a
cached error for `m`. -/
def ffStW : DispatchState :=
  { accounts := ["a.json", "b.json"]
    quota := [("m", [("a.json", { remainingPercent := some 0 })
                     , ("b.json", { remainingPercent := some 0 })])]
    lastError := [("m", cachedW)] }

/-- An environment: the first upstream call answers 429 with a 500 ms
retry hint, every later call answers 200. -/
def envW : Env :=
  { outcomes := fun kk =>
      if kk = 0 then .resp ⟨429, [], "rl", some 500⟩ else .resp ⟨200, [], "ok", none⟩
    gateNow := 0
    iterNow := fun _ => 1000 }

/-- Concrete instance of C5: an exhausted loop with no last response and
no last network error returns the cached error. -/
theorem c5_loop_exhaustion_witness :
    runAttempts envW 2 "m" "gemini" 0 0 [] ffStW 0 none none
      = ⟨.resp (fabricate cachedW), ffStW, []⟩ := by
  have h := c5_loop_exhaustion envW 2 "m" "gemini" 0 [] ffStW 0 none none
  rw [h.1, h.2.2.2.1 (fabricate cachedW) rfl rfl (by decide)]

/-- C4: with `maxAttempts = 1`, an attempt that received a 429 either
returns it unchanged with no sleep and no further call (parsed
`retryMs > 5000`), or sleeps `retryMs + 200` (resp.
`FIXED_RETRY_DELAY_MS` when the hint is unparseable), retries the same
account exactly once, and hands back whatever that single retry produces
(its response, or its network error thrown). -/
theorem c4_single_account_429 (env : Env) (modelId accountKey : String)
    (accountIndex : Nat) (now : Int) (r : HttpResp) (st : DispatchState) (k : Nat)
    (lr : Option HttpResp) (ln : Option String) (h429 : r.status = 429) :
    let D := dispositionAfterResponse env 1 modelId accountKey accountIndex now r st k lr ln
    (∀ rv, r.retryMs = some rv → rv > 5000 →
      D.done = some (.resp (toResp r)) ∧ D.events = [] ∧ D.nextCall = k) ∧
      (∀ rv, r.retryMs = some rv → 0 ≤ rv → rv ≤ 5000 →
        D.events = [.slept (rv + 200), .httpCall accountIndex] ∧ D.nextCall = k + 1 ∧
          D.done = some (match env.outcomes k with
            | .netErr m => .thrown (.network m)
            | .resp rr => .resp (toResp rr))) ∧
      (r.retryMs = none →
        D.events = [.slept FIXED_RETRY_DELAY_MS, .httpCall accountIndex] ∧
          D.nextCall = k + 1 ∧
          D.done = some (match env.outcomes k with
            | .netErr m => .thrown (.network m)
            | .resp rr => .resp (toResp rr))) := by
  intro D
  have hok : respOk r = false := by
    simp [respOk, h429]
  have hmax1 : (1 : Nat) = 1 := rfl
  refine ⟨?_, ?_, ?_⟩
  · intro rv hrv hgt
    show (dispositionAfterResponse env 1 modelId accountKey accountIndex now r st k
        lr ln).done = some (.resp (toResp r)) ∧
      (dispositionAfterResponse env 1 modelId accountKey accountIndex now r st k
        lr ln).events = [] ∧
      (dispositionAfterResponse env 1 modelId accountKey accountIndex now r st k
        lr ln).nextCall = k
    simp only [dispositionAfterResponse, hok, Bool.false_eq_true, if_false, h429, ne_eq,
      not_true_eq_false, hrv, if_pos hgt, eq_self_iff_true, if_true]
    simp
  · intro rv hrv h0 hle
    have hmax : max 0 (rv + 200) = rv + 200 := max_eq_right (by omega)
    show (dispositionAfterResponse env 1 modelId accountKey accountIndex now r st k
        lr ln).events = [.slept (rv + 200), .httpCall accountIndex] ∧
      (dispositionAfterResponse env 1 modelId accountKey accountIndex now r st k
        lr ln).nextCall = k + 1 ∧
      (dispositionAfterResponse env 1 modelId accountKey accountIndex now r st k
        lr ln).done = some (match env.outcomes k with
          | .netErr m => .thrown (.network m)
          | .resp rr => .resp (toResp rr))
    simp only [dispositionAfterResponse, hok, Bool.false_eq_true, if_false, h429, ne_eq,
      not_true_eq_false, hrv, if_neg (by omega : ¬ rv > 5000), eq_self_iff_true, if_true,
      hmax, dispositionAfterResponse.sameAccountRetry]
    cases houtcome : env.outcomes k with
    | netErr m => simp
    | resp rr =>
      by_cases hrr : respOk rr
      · simp only [hrr, if_true]
        simp
      · simp only [hrr, Bool.false_eq_true, if_false]
        simp
  · intro hrv
    show (dispositionAfterResponse env 1 modelId accountKey accountIndex now r st k
        lr ln).events = [.slept FIXED_RETRY_DELAY_MS, .httpCall accountIndex] ∧
      (dispositionAfterResponse env 1 modelId accountKey accountIndex now r st k
        lr ln).nextCall = k + 1 ∧
      (dispositionAfterResponse env 1 modelId accountKey accountIndex now r st k
        lr ln).done = some (match env.outcomes k with
          | .netErr m => .thrown (.network m)
          | .resp rr => .resp (toResp rr))
    simp only [dispositionAfterResponse, hok, Bool.false_eq_true, if_false, h429, ne_eq,
      not_true_eq_false, hrv, eq_self_iff_true, if_true,
      dispositionAfterResponse.sameAccountRetry]
    cases houtcome : env.outcomes k with
    | netErr m => simp
    | resp rr =>
      by_cases hrr : respOk rr
      · simp only [hrr, if_true]
        simp
      · simp only [hrr, Bool.false_eq_true, if_false]
        simp

/-- Concrete instance of C4: a 429 with a 2.5 s hint sleeps 2700 ms and
returns the single retry's 200 response. -/
theorem c4_single_account_429_witness :
    let D := dispositionAfterResponse envW 1 "m" "a.json" 0 1000
      ⟨429, [], "rl", some 2500⟩ ffStW 1 none none
    D.events = [.slept 2700, .httpCall 0] ∧ D.nextCall = 2 ∧
      D.done = some (.resp (toResp ⟨200, [], "ok", none⟩)) := by
  have h := (c4_single_account_429 envW "m" "a.json" 0 1000
    ⟨429, [], "rl", some 2500⟩ ffStW 1 none none rfl).2.1 2500 rfl (by omega) (by omega)
  exact ⟨h.1, h.2.1, h.2.2⟩

/-! ### Claim about refresh-on-expiry (C6) -/

/-- `ensureProjectId` never changes the access token. -/
theorem ensureProjectId_access_token (c : Creds) (fetchedPid : Except String String)
    (resolvedAt : String) (pid : String) (c' : Creds)
    (h : ensureProjectId c fetchedPid resolvedAt = .ok (pid, c')) :
    c'.access_token = c.access_token := by
  unfold ensureProjectId at h
  by_cases hv : (isValidProjectId c.projectId && hasProjectIdRepairMarker c) = true
  · rw [if_pos hv] at h
    simp only [Except.ok.injEq, Prod.mk.injEq] at h
    rw [← h.2]
  · rw [if_neg hv] at h
    match fetchedPid with
    | .error e => simp at h
    | .ok p =>
      by_cases hvp : isValidProjectId (some p) = true
      · simp only [hvp, if_true, Except.ok.injEq, Prod.mk.injEq] at h
        rw [← h.2]
      · simp [hvp] at h

/-- The stale credential of the C6 instances: expires at instant 1000 and
carries a verified project id. -/
def c6Creds : Creds where
  access_token := "OLD"
  refresh_token := "r"
  expiry_date := 1000
  projectId := some "p"
  projectIdResolvedAt := some "2026-01-01"

/-- C6 counterexample state: one account holding `c6Creds`. -/
def c6St : AuthState where
  accounts := [{ filePath := "auths/a.json", creds := c6Creds }]

/-- The refreshed credential record the token endpoint would deliver. -/
def c6NewCreds : Creds where
  access_token := "NEW"
  refresh_token := "r2"
  expiry_date := 9000

/-- The credentials after a successful refresh of `c6Creds` by
`c6NewCreds` (email preserved, verified project id carried forward). -/
def c6CredsRefreshed : Creds where
  access_token := "NEW"
  refresh_token := "r2"
  expiry_date := 9000
  projectId := some "p"
  projectIdResolvedAt := some "2026-01-01"

/-- The manager state after that refresh lands in slot 0. -/
def c6StRefreshed : AuthState where
  accounts := [{ filePath := "auths/a.json", creds := c6CredsRefreshed, refreshTimer := some 3 }]

/-- C6 is false as stated: at `expiry_date = now` (here both 1000) no
refresh is triggered — `getCredentialsByIndex` hands out the stale token
`OLD` even though a refresh yielding `NEW` is available, and
`getAccessTokenByIndex` leaves the state untouched. -/
theorem c6_counterexample :
    getCredentialsByIndex c6St 0 1000 (.ok c6NewCreds) (.error "unused") "ra" 3
        = .ok ("OLD", "p", c6St) ∧
      getAccessTokenByIndex c6St 0 1000 (.ok c6NewCreds) (.error "unused") "ra" 3
        = .ok ("OLD", c6St) ∧
      (refreshOutcome c6Creds (.ok c6NewCreds) (.error "unused") "ra").map
          Creds.access_token = .ok "NEW" := by
  refine ⟨by decide, by decide, by decide⟩

/-- The manager state after a refresh yielding `data` lands in slot `i`. -/
def afterRefreshState (st : AuthState) (i : Nat) (account : Account) (data : Creds)
    (timerId : Nat) : AuthState :=
  let account' :=
    { account with creds := data, refreshPromise := none, refreshTimer := some timerId }
  { st with accounts := st.accounts.set i account' }

/-- C6 amended: the refresh is triggered exactly when
`expiry_date < now` (strictly).  When it is, `getAccessTokenByIndex`
returns the refreshed token (or propagates the refresh failure) with the
slot updated; when `now ≤ expiry_date` — including equality — the stored
token is returned and the state is unchanged.  `getCredentialsByIndex`
returns the refreshed token exactly in the strict case and the stored
token otherwise. -/
theorem c6_refresh_strict_amended (st : AuthState) (index : Int) (now : Int)
    (httpResult : Except String Creds) (fetchedPid : Except String String)
    (resolvedAt : String) (timerId : Nat) (account : Account)
    (hne : st.accounts ≠ []) (h0 : 0 ≤ index) (h1 : index < (st.accounts.length : Int))
    (hacc : st.accounts[index.toNat]? = some account) :
    (account.creds.expiry_date < now →
      getAccessTokenByIndex st index now httpResult fetchedPid resolvedAt timerId
        = match refreshOutcome account.creds httpResult fetchedPid resolvedAt with
          | .error e => .error e
          | .ok data =>
            .ok (data.access_token, afterRefreshState st index.toNat account data timerId)) ∧
      (now ≤ account.creds.expiry_date →
        getAccessTokenByIndex st index now httpResult fetchedPid resolvedAt timerId
          = .ok (account.creds.access_token, st)) ∧
      (account.creds.expiry_date < now →
        ∀ data tok pid st'', refreshOutcome account.creds httpResult fetchedPid resolvedAt
            = .ok data →
          getCredentialsByIndex st index now httpResult fetchedPid resolvedAt timerId
              = .ok (tok, pid, st'') →
          tok = data.access_token) ∧
      (now ≤ account.creds.expiry_date →
        ∀ tok pid st'', getCredentialsByIndex st index now httpResult fetchedPid resolvedAt
            timerId = .ok (tok, pid, st'') →
          tok = account.creds.access_token) := by
  have hempty : st.accounts.isEmpty = false := by
    cases hlist : st.accounts with
    | nil => exact absurd hlist hne
    | cons a as => rfl
  have hrange : (decide (0 ≤ index) && decide (index < (st.accounts.length : Int))) = true := by
    simp [h0, h1]
  refine ⟨?_, ?_, ?_, ?_⟩
  · intro hlt
    unfold getAccessTokenByIndex
    simp only [hempty, Bool.false_eq_true, if_false, hrange, Bool.not_true, hacc,
      if_pos hlt, afterRefreshState]
  · intro hge
    unfold getAccessTokenByIndex
    simp only [hempty, Bool.false_eq_true, if_false, hrange, Bool.not_true, hacc,
      if_neg (by omega : ¬ account.creds.expiry_date < now)]
  · intro hlt data tok pid st'' hro hcall
    unfold getCredentialsByIndex at hcall
    simp only [hempty, Bool.false_eq_true, if_false, hrange, Bool.not_true, hacc,
      if_pos hlt, hro] at hcall
    match hens : ensureProjectId data fetchedPid resolvedAt with
    | .error e =>
      rw [hens] at hcall
      simp at hcall
    | .ok (pid2, creds') =>
      rw [hens] at hcall
      simp only [Except.ok.injEq, Prod.mk.injEq] at hcall
      rw [← hcall.1]
      exact ensureProjectId_access_token data fetchedPid resolvedAt pid2 creds' hens
  · intro hge tok pid st'' hcall
    unfold getCredentialsByIndex at hcall
    simp only [hempty, Bool.false_eq_true, if_false, hrange, Bool.not_true, hacc,
      if_neg (by omega : ¬ account.creds.expiry_date < now)] at hcall
    match hens : ensureProjectId account.creds fetchedPid resolvedAt with
    | .error e =>
      rw [hens] at hcall
      simp at hcall
    | .ok (pid2, creds') =>
      rw [hens] at hcall
      simp only [Except.ok.injEq, Prod.mk.injEq] at hcall
      rw [← hcall.1]
      exact ensureProjectId_access_token account.creds fetchedPid resolvedAt pid2 creds' hens

/-- Concrete instance of amended C6: one millisecond past expiry the
refresh fires and the refreshed token `NEW` comes back with the slot
updated; at the expiry instant itself the stored token comes back with
the state unchanged. -/
theorem c6_refresh_strict_amended_witness :
    getAccessTokenByIndex c6St 0 1001 (.ok c6NewCreds) (.error "unused") "ra" 3
        = .ok ("NEW", c6StRefreshed) ∧
      getAccessTokenByIndex c6St 0 1000 (.ok c6NewCreds) (.error "unused") "ra" 3
        = .ok ("OLD", c6St) := by
  have h1 := c6_refresh_strict_amended c6St 0 1001 (.ok c6NewCreds) (.error "unused") "ra" 3
    ({ filePath := "auths/a.json", creds := c6Creds }) (by decide) (by decide) (by decide)
    (by decide)
  have h2 := c6_refresh_strict_amended c6St 0 1000 (.ok c6NewCreds) (.error "unused") "ra" 3
    ({ filePath := "auths/a.json", creds := c6Creds }) (by decide) (by decide) (by decide)
    (by decide)
  exact ⟨(h1.1 (by decide)).trans (by decide), (h2.2.1 (by decide)).trans (by decide)⟩

/-! ### Order lemmas for the comparator (towards C3 and C1) -/

theorem cmpResetIdx_le_iff (a b : PriorityItem) :
    cmpResetIdx a b ≤ 0 ↔
      (resetLT a.resetTimeMs b.resetTimeMs ∨
        (a.resetTimeMs = b.resetTimeMs ∧ a.accountIndex ≤ b.accountIndex)) := by
  unfold cmpResetIdx
  rcases hra : a.resetTimeMs with _ | x <;> rcases hrb : b.resetTimeMs with _ | y
  · simp [resetLT]
  · simp [resetLT]
  · simp [resetLT]
  · simp only [resetLT, Option.some.injEq]
    by_cases hxy : x = y
    · rw [if_neg (by omega)]
      constructor
      · intro h
        exact Or.inr ⟨hxy, by omega⟩
      · rintro (h | ⟨-, h⟩) <;> omega
    · rw [if_pos (by omega)]
      constructor
      · intro h
        exact Or.inl (by omega)
      · rintro (h | ⟨h1, -⟩)
        · omega
        · exact absurd h1 hxy

theorem cmpItems_le_iff_of_cd_eq (a b : PriorityItem)
    (hcd : a.cooldownActive = b.cooldownActive) :
    cmpItems a b ≤ 0 ↔
      (b.remainingPercent.getD (-1) < a.remainingPercent.getD (-1) ∨
        (a.remainingPercent.getD (-1) = b.remainingPercent.getD (-1) ∧
          (resetLT a.resetTimeMs b.resetTimeMs ∨
            (a.resetTimeMs = b.resetTimeMs ∧ a.accountIndex ≤ b.accountIndex)))) := by
  unfold cmpItems
  rw [if_neg (by simp [hcd])]
  by_cases hAB : a.remainingPercent.getD (-1) = b.remainingPercent.getD (-1)
  · rw [if_neg (by omega), cmpResetIdx_le_iff]
    constructor
    · intro h
      exact Or.inr ⟨hAB, h⟩
    · rintro (h | ⟨-, h⟩)
      · omega
      · exact h
  · rw [if_pos (by omega)]
    constructor
    · intro h
      exact Or.inl (by omega)
    · rintro (h | ⟨h1, -⟩)
      · omega
      · exact absurd h1 hAB

/-- The comparator's order is exactly the four-criterion order the
specification describes. -/
theorem itemLE_iff_specLE (a b : PriorityItem) : itemLE a b ↔ specLE a b := by
  unfold itemLE specLE
  by_cases hcd : a.cooldownActive = b.cooldownActive
  · rw [cmpItems_le_iff_of_cd_eq a b hcd]
    cases ha : a.cooldownActive
    · rw [ha] at hcd
      simp [ha, ← hcd]
    · rw [ha] at hcd
      simp [ha, ← hcd]
  · unfold cmpItems
    rw [if_pos (by simp [hcd])]
    cases ha : a.cooldownActive <;> cases hb : b.cooldownActive
    · rw [ha, hb] at hcd
      exact absurd rfl hcd
    · simp [ha, hb]
    · simp [ha, hb]
    · rw [ha, hb] at hcd
      exact absurd rfl hcd

theorem cmpResetIdx_swap (a b : PriorityItem) : cmpResetIdx b a = -cmpResetIdx a b := by
  unfold cmpResetIdx
  rcases hra : a.resetTimeMs with _ | x <;> rcases hrb : b.resetTimeMs with _ | y
  · simp
  · simp
  · simp
  · by_cases hxy : x = y
    · subst hxy
      simp
    · simp only []
      rw [if_pos (by omega), if_pos (by omega)]
      omega

theorem cmpItems_swap (a b : PriorityItem) : cmpItems b a = -cmpItems a b := by
  unfold cmpItems
  by_cases hcd : a.cooldownActive = b.cooldownActive
  · rw [if_neg (show ¬(b.cooldownActive ≠ a.cooldownActive) by simp [hcd]),
      if_neg (show ¬(a.cooldownActive ≠ b.cooldownActive) by simp [hcd])]
    by_cases hAB : a.remainingPercent.getD (-1) = b.remainingPercent.getD (-1)
    · rw [if_neg (show ¬(b.remainingPercent.getD (-1) ≠ a.remainingPercent.getD (-1))
          by omega),
        if_neg (show ¬(a.remainingPercent.getD (-1) ≠ b.remainingPercent.getD (-1))
          by omega),
        cmpResetIdx_swap]
    · rw [if_pos (show b.remainingPercent.getD (-1) ≠ a.remainingPercent.getD (-1)
          by omega),
        if_pos (show a.remainingPercent.getD (-1) ≠ b.remainingPercent.getD (-1)
          by omega)]
      omega
  · rw [if_pos (show b.cooldownActive ≠ a.cooldownActive from fun h => hcd h.symm),
      if_pos (show a.cooldownActive ≠ b.cooldownActive from hcd)]
    cases ha : a.cooldownActive <;> cases hb : b.cooldownActive
    · rw [ha, hb] at hcd
      exact absurd rfl hcd
    · decide
    · decide
    · rw [ha, hb] at hcd
      exact absurd rfl hcd

theorem resetLT_trans {x y z : Option Int} (h1 : resetLT x y) (h2 : resetLT y z) :
    resetLT x z := by
  rcases x with _ | a <;> rcases y with _ | b <;> rcases z with _ | c <;>
      simp [resetLT] at * <;> omega

theorem specLE_trans {a b c : PriorityItem} (h1 : specLE a b) (h2 : specLE b c) :
    specLE a c := by
  unfold specLE at *
  rcases h1 with ⟨ha1, hb1⟩ | ⟨he1, h1⟩
  · rcases h2 with ⟨hb2, hc2⟩ | ⟨he2, h2⟩
    · rw [hb1] at hb2
      exact absurd hb2 (by decide)
    · exact Or.inl ⟨ha1, he2 ▸ hb1⟩
  · rcases h2 with ⟨hb2, hc2⟩ | ⟨he2, h2⟩
    · exact Or.inl ⟨he1 ▸ hb2, hc2⟩
    · refine Or.inr ⟨he1.trans he2, ?_⟩
      rcases h1 with h1 | ⟨hp1, h1⟩
      · rcases h2 with h2 | ⟨hp2, h2⟩
        · exact Or.inl (by omega)
        · exact Or.inl (by omega)
      · rcases h2 with h2 | ⟨hp2, h2⟩
        · exact Or.inl (by omega)
        · refine Or.inr ⟨hp1.trans hp2, ?_⟩
          rcases h1 with h1 | ⟨hr1, hi1⟩
          · rcases h2 with h2 | ⟨hr2, hi2⟩
            · exact Or.inl (resetLT_trans h1 h2)
            · exact Or.inl (hr2 ▸ h1)
          · rcases h2 with h2 | ⟨hr2, hi2⟩
            · exact Or.inl (hr1 ▸ h2)
            · exact Or.inr ⟨hr1.trans hr2, le_trans hi1 hi2⟩

instance : IsTotal PriorityItem itemLE :=
  ⟨fun a b => by
    unfold itemLE
    have := cmpItems_swap a b
    omega⟩

instance : IsTrans PriorityItem itemLE :=
  ⟨fun a b c h1 h2 =>
    (itemLE_iff_specLE a c).mpr
      (specLE_trans ((itemLE_iff_specLE a b).mp h1) ((itemLE_iff_specLE b c).mp h2))⟩

/-! ### Claim about candidate ordering (C3) -/

/-- C3: with the default `includeZero = false`, the returned candidate
list is a permutation of the non-excluded candidates without the
known-zero ones, sorted by the specification's order (`specLE`): active
cooldown last, then `remainingPercent` descending with unknown as -1,
then `resetTimeMs` ascending with unknown as plus infinity, then account
index ascending; no returned candidate has a known zero quota. -/
theorem c3_priorities_order (st : DispatchState) (modelId : String) (now : Int)
    (excluded : List Nat) :
    (getAccountPrioritiesForModel st modelId now false excluded).items.Sorted specLE ∧
      (getAccountPrioritiesForModel st modelId now false excluded).items.Perm
        (candidateItems st modelId now false excluded) ∧
      ∀ it ∈ (getAccountPrioritiesForModel st modelId now false excluded).items,
        it.remainingPercent ≠ some 0 := by
  have hitems : (getAccountPrioritiesForModel st modelId now false excluded).items
      = List.insertionSort itemLE (candidateItems st modelId now false excluded) := rfl
  refine ⟨?_, ?_, ?_⟩
  · rw [hitems]
    exact (List.sorted_insertionSort itemLE _).imp
      (fun h => (itemLE_iff_specLE _ _).mp h)
  · rw [hitems]
    exact List.perm_insertionSort itemLE _
  · intro it hit
    rw [hitems] at hit
    have hmem : it ∈ candidateItems st modelId now false excluded :=
      (List.mem_insertionSort itemLE).mp hit
    unfold candidateItems at hmem
    simp only [List.mem_map] at hmem
    obtain ⟨p, hp, rfl⟩ := hmem
    have hpred := List.of_mem_filter hp
    simp only [Bool.false_or, Bool.not_eq_true', beq_eq_false_iff_ne] at hpred
    exact hpred

/-- A pool exercising every ordering criterion: a known half-full
account, an unknown one, one in active cooldown, and a known-zero one. -/
def prioStW : DispatchState where
  accounts := ["a.json", "b.json", "c.json", "d.json"]
  quota := [("m", [("a.json", { remainingPercent := some 50, resetTimeMs := some 5000 })
                   , ("c.json", { remainingPercent := some 80, cooldownUntilMs := some 2000 })
                   , ("d.json", { remainingPercent := some 0 })])]

/-- Concrete instance of C3 at `prioStW`: the returned list is a
permutation of the filtered candidates and its head (the known half-full
account) has no known-zero quota. -/
theorem c3_priorities_order_witness :
    (getAccountPrioritiesForModel prioStW "m" 1000 false []).items.Perm
        (candidateItems prioStW "m" 1000 false []) ∧
      PriorityItem.remainingPercent
          ⟨0, "a.json", some 50, some 5000, 0, false⟩ ≠ some 0 :=
  ⟨(c3_priorities_order prioStW "m" 1000 []).2.1,
    (c3_priorities_order prioStW "m" 1000 []).2.2
      ⟨0, "a.json", some 50, some 5000, 0, false⟩ (by decide)⟩

/-! ### Claim about 429 cooldowns (C1) -/

theorem quotaCooldown_set_self (st : DispatchState) (modelId accountKey : String)
    (cd : Int) (hpre : jsStrTrim modelId = modelId) (hm : modelId ≠ "") :
    quotaCooldown (setCooldownUntil st modelId accountKey cd) modelId accountKey
      = some cd := by
  simp only [quotaCooldown, getQuota, perModelOf, setCooldownUntil, hpre, if_neg hm]
  rw [alookup_aset_self]
  simp only [Option.getD_some]
  rw [alookup_aset_self]
  rfl

/-- Every returned candidate row reports its own account's key, its
stored cooldown instant, and cooldown activity relative to `now`. -/
theorem mem_items_facts (st : DispatchState) (modelId : String) (now : Int)
    (includeZero : Bool) (excluded : List Nat) (it : PriorityItem)
    (hit : it ∈ (getAccountPrioritiesForModel st modelId now includeZero excluded).items) :
    st.accounts[it.accountIndex]? = some it.accountKey ∧
      it.cooldownUntilMs
        = ((getQuota st modelId it.accountKey).bind QuotaEntry.cooldownUntilMs).getD 0 ∧
      it.cooldownActive = decide (it.cooldownUntilMs > now) := by
  have hmem : it ∈ candidateItems st modelId now includeZero excluded :=
    (List.mem_insertionSort itemLE).mp hit
  unfold candidateItems at hmem
  simp only [List.mem_map] at hmem
  obtain ⟨p, hp, rfl⟩ := hmem
  have hpairs : p ∈ candidatePairs st.accounts excluded := List.mem_of_mem_filter hp
  unfold candidatePairs at hpairs
  have henum : p ∈ enumIdx 0 st.accounts := List.mem_of_mem_filter hpairs
  have hidx := mem_enumIdx henum
  refine ⟨?_, rfl, rfl⟩
  have h2 := hidx.2
  simpa using h2

/-- If the top-ranked candidate is in active cooldown, so is every
candidate (the sort puts active-cooldown candidates last). -/
theorem head_active_all_active {it0 : PriorityItem} {rest : List PriorityItem}
    (hsort : List.Sorted itemLE (it0 :: rest)) (hact : it0.cooldownActive = true) :
    (it0 :: rest).all PriorityItem.cooldownActive = true := by
  rw [List.all_eq_true]
  intro y hy
  rcases List.mem_cons.mp hy with rfl | hy'
  · exact hact
  · have hle := List.rel_of_sorted_cons hsort y hy'
    have hs := (itemLE_iff_specLE it0 y).mp hle
    unfold specLE at hs
    rcases hs with ⟨h1, -⟩ | ⟨h1, -⟩
    · rw [hact] at h1
      exact absurd h1 (by decide)
    · rw [← h1, hact]

/-- A two-account pool with no quota observations, for the C1 instances. -/
def cexStW : DispatchState where
  accounts := ["a.json", "b.json"]

/-- C1 is false as stated: a 429 observed at `now = 1000` with parsed
`retryMs = 500` sets the `(m, a.json)` cooldown to
`now + max(0, 500) = 1500`, not to
`now + max(500, FIXED_RETRY_DELAY_MS) = 2200` as claimed. -/
theorem c1_counterexample :
    quotaCooldown (callV1Internal envW cexStW none (some "m")).state "m" "a.json"
        = some (1000 + max 0 500) ∧
      quotaCooldown (callV1Internal envW cexStW none (some "m")).state "m" "a.json"
        ≠ some (1000 + max (500 : Int) FIXED_RETRY_DELAY_MS) :=
  ⟨by decide, by decide⟩

/-- C1 amended: the 429 handler sets the `(model, accountKey)` entry's
`cooldownUntilMs` to `now + max(0, retryMs)` when the hint parsed and to
`now + FIXED_RETRY_DELAY_MS` when it did not (`cooldownDelta`), and until
that instant the attempt loop's selection never picks an account bearing
that key for that model (the loop either picks a candidate outside active
cooldown or does not pick at all). -/
theorem c1_cooldown_amended (st : DispatchState) (modelId accountKey quotaGroup : String)
    (now : Int) (retryMs : Option Int)
    (hpre : jsStrTrim modelId = modelId) (hm : modelId ≠ "") :
    quotaCooldown (setCooldownUntil st modelId accountKey (now + cooldownDelta retryMs))
        modelId accountKey = some (now + cooldownDelta retryMs) ∧
      ∀ (t : Int) (tried : List Nat) (lr : Option HttpResp) (ln : Option String) (i : Nat),
        t < now + cooldownDelta retryMs →
        selectForIteration
            (setCooldownUntil st modelId accountKey (now + cooldownDelta retryMs))
            modelId quotaGroup t tried lr ln = .pick i →
        (setCooldownUntil st modelId accountKey
            (now + cooldownDelta retryMs)).accounts[i]? ≠ some accountKey := by
  refine ⟨quotaCooldown_set_self st modelId accountKey _ hpre hm, ?_⟩
  intro t tried lr ln i ht hsel hkey
  unfold selectForIteration at hsel
  rw [if_pos hm] at hsel
  cases hitems : (getAccountPrioritiesForModel
      (setCooldownUntil st modelId accountKey (now + cooldownDelta retryMs))
      modelId t false tried).items with
  | nil =>
    simp only [hitems] at hsel
    exact SelectOut.noConfusion hsel
  | cons it0 rest =>
    simp only [hitems] at hsel
    by_cases hall : (it0 :: rest).all PriorityItem.cooldownActive = true
    · rw [if_pos hall] at hsel
      split at hsel
      · exact SelectOut.noConfusion hsel
      · split at hsel
        · exact SelectOut.noConfusion hsel
        · split at hsel
          · exact SelectOut.noConfusion hsel
          · exact SelectOut.noConfusion hsel
    · rw [if_neg hall] at hsel
      have hi : it0.accountIndex = i := by
        injection hsel
      have hmem : it0 ∈ (getAccountPrioritiesForModel
          (setCooldownUntil st modelId accountKey (now + cooldownDelta retryMs))
          modelId t false tried).items := by
        rw [hitems]
        exact List.mem_cons_self _ _
      obtain ⟨hf1, hf2, hf3⟩ := mem_items_facts _ modelId t false tried it0 hmem
      rw [hi, hkey] at hf1
      have hkeq : it0.accountKey = accountKey := by
        injection hf1 with h
        exact h.symm
      have hq := quotaCooldown_set_self st modelId accountKey
        (now + cooldownDelta retryMs) hpre hm
      unfold quotaCooldown at hq
      have hcd : it0.cooldownUntilMs = now + cooldownDelta retryMs := by
        rw [hf2, hkeq, hq]
        rfl
      have hact : it0.cooldownActive = true := by
        rw [hf3, hcd]
        simp only [gt_iff_lt, decide_eq_true_eq]
        omega
      have hsort : List.Sorted itemLE (it0 :: rest) := by
        rw [← hitems]
        exact List.sorted_insertionSort itemLE _
      exact absurd (head_active_all_active hsort hact) hall

/-- Concrete instance of amended C1: after a 429 with `retryMs = 500` at
instant 1000, the `(m, a.json)` cooldown reads 1500, and at instant 1400
the selection picks index 1 — whose key is not `a.json`. -/
theorem c1_cooldown_amended_witness :
    quotaCooldown (setCooldownUntil cexStW "m" "a.json" (1000 + cooldownDelta (some 500)))
        "m" "a.json" = some (1000 + cooldownDelta (some 500)) ∧
      (setCooldownUntil cexStW "m" "a.json"
          (1000 + cooldownDelta (some 500))).accounts[1]? ≠ some "a.json" := by
  have h := c1_cooldown_amended cexStW "m" "a.json" "gemini" 1000 (some 500) (by decide)
    (by decide)
  exact ⟨h.1, h.2 1400 [] none none 1 (by decide) (by decide)⟩

/-! ### Claim about the fast-fail gate (C2) -/

theorem candidatePairs_no_excl (accounts : List String) :
    candidatePairs accounts [] = enumIdx 0 accounts := by
  unfold candidatePairs
  exact List.filter_eq_self.mpr (fun p _ => by simp)

/-- With a nonempty pool whose every account is known-zero for the model,
the gate's snapshot reports `allZeroKnown`. -/
theorem allZeroKnown_of_all_zero (st : DispatchState) (modelId : String) (now : Int)
    (hne : st.accounts ≠ [])
    (hz : ∀ key ∈ st.accounts, rpOf (perModelOf st modelId) key = some 0) :
    (getAccountPrioritiesForModel st modelId now true []).allZeroKnown = true := by
  have hknown : ((candidatePairs st.accounts []).filter
      (fun p => (rpOf (perModelOf st modelId) p.2).isSome)).length
        = st.accounts.length := by
    rw [candidatePairs_no_excl, List.filter_eq_self.mpr, enumIdx_length]
    intro p hp
    rw [hz p.2 (mem_enumIdx_snd hp)]
    rfl
  have hnz : ((candidatePairs st.accounts []).filter
      (fun p => match rpOf (perModelOf st modelId) p.2 with
        | some v => decide (v > 0)
        | none => false)).length = 0 := by
    rw [candidatePairs_no_excl, List.filter_eq_nil.mpr]
    · rfl
    · intro p hp
      rw [hz p.2 (mem_enumIdx_snd hp)]
      decide
  show (decide (st.accounts.length > 0) && _ && _) = true
  rw [hknown, hnz]
  simp [List.length_pos.mpr hne]

theorem getCachedErrorResponse_some (st : DispatchState) (modelId : String)
    (c : CachedError) (hpre : jsStrTrim modelId = modelId) (hm : modelId ≠ "")
    (hc : alookup st.lastError modelId = some c) :
    getCachedErrorResponse st modelId = some (fabricate c) := by
  unfold getCachedErrorResponse
  rw [hpre, if_neg hm, hc]
  rfl

/-- C2: when every loaded account is known-zero for the (known) model and
a cached error exists for it, `callV1Internal` returns the response
fabricated from the cached `{status, headers, bodyText}`, the dispatcher
state is untouched, and the event trace is empty — in particular no
upstream HTTP call is issued. -/
theorem c2_fastfail (env : Env) (st : DispatchState) (group? : Option String)
    (model : String) (c : CachedError)
    (hpre : jsStrTrim model = model) (hm : model ≠ "")
    (hne : st.accounts ≠ [])
    (hz : ∀ key ∈ st.accounts, rpOf (perModelOf st model) key = some 0)
    (hc : alookup st.lastError model = some c) :
    callV1Internal env st group? (some model) = ⟨.resp (fabricate c), st, []⟩ := by
  have hz' := allZeroKnown_of_all_zero st model env.gateNow hne hz
  have hcached := getCachedErrorResponse_some st model c hpre hm hc
  unfold callV1Internal
  simp only [Option.getD_some, hpre, if_pos hm, hz', if_pos rfl, hcached, if_true]

/-- Concrete instance of C2 on the all-zero pool `ffStW`. -/
theorem c2_fastfail_witness :
    callV1Internal envW ffStW none (some "m") = ⟨.resp (fabricate cachedW), ffStW, []⟩ :=
  c2_fastfail envW ffStW none "m" cachedW (by decide) (by decide) (by decide)
    (by decide) (by decide)

/-! ### Scanner lemmas for the duration parser (towards C9) -/

theorem scanDurFuel_nil (f : Nat) : scanDurFuel f [] = [] := by
  cases f <;> rfl

theorem length_dropWhile_le' (p : Char → Bool) (l : List Char) :
    (l.dropWhile p).length ≤ l.length := by
  induction l with
  | nil => simp
  | cons a as ih =>
    by_cases h : p a
    · simp only [List.dropWhile_cons, h, if_true, List.length_cons]
      omega
    · simp [List.dropWhile_cons, h]

theorem matchUnit_shrink {l r : List Char} {u : DurUnit} (h : matchUnit l = some (u, r)) :
    r.length < l.length := by
  unfold matchUnit at h
  split at h
  · split at h
    · simp only [Option.some.injEq, Prod.mk.injEq] at h
      rw [← h.2]
      simp
      omega
    · simp only [Option.some.injEq, Prod.mk.injEq] at h
      rw [← h.2]
      simp
  · simp only [Option.some.injEq, Prod.mk.injEq] at h
    rw [← h.2]
    simp
  · simp only [Option.some.injEq, Prod.mk.injEq] at h
    rw [← h.2]
    simp
  · exact absurd h (by simp)

theorem tryMatchAt_shrink {l : List Char} {n r : List Char} {u : DurUnit}
    (h : tryMatchAt l = some (n, u, r)) : r.length < l.length := by
  match l with
  | [] => simp [tryMatchAt] at h
  | c :: tl =>
    simp only [tryMatchAt] at h
    by_cases hc : isDurDigitDot c
    · rw [if_pos hc] at h
      match hm : matchUnit (((c :: tl).dropWhile isDurDigitDot).dropWhile isJsSpace) with
      | none =>
        rw [hm] at h
        exact absurd h (by simp)
      | some (u2, r2) =>
        rw [hm] at h
        simp only [Option.some.injEq, Prod.mk.injEq] at h
        have h1 := matchUnit_shrink hm
        have h2 := length_dropWhile_le' isJsSpace ((c :: tl).dropWhile isDurDigitDot)
        have h3 : ((c :: tl).dropWhile isDurDigitDot).length < (c :: tl).length := by
          simp only [List.dropWhile_cons, hc, if_true]
          have := length_dropWhile_le' isDurDigitDot tl
          simp
          omega
        rw [← h.2.2]
        omega
    · rw [if_neg hc] at h
      exact absurd h (by simp)

theorem scanDurFuel_congr : ∀ (f1 f2 : Nat) (l : List Char),
    l.length ≤ f1 → l.length ≤ f2 → scanDurFuel f1 l = scanDurFuel f2 l := by
  intro f1
  induction f1 with
  | zero =>
    intro f2 l h1 h2
    have : l = [] := List.eq_nil_of_length_eq_zero (by omega)
    subst this
    rw [scanDurFuel_nil, scanDurFuel_nil]
  | succ f ih =>
    intro f2 l h1 h2
    match l with
    | [] => rw [scanDurFuel_nil, scanDurFuel_nil]
    | c :: tl =>
      match f2 with
      | 0 => simp at h2
      | f2' + 1 =>
        show (match tryMatchAt (c :: tl) with
          | some (num, u, rest3) => (num, u) :: scanDurFuel f rest3
          | none => scanDurFuel f tl) =
          (match tryMatchAt (c :: tl) with
          | some (num, u, rest3) => (num, u) :: scanDurFuel f2' rest3
          | none => scanDurFuel f2' tl)
        match hm : tryMatchAt (c :: tl) with
        | some (num, u, rest3) =>
          have hs := tryMatchAt_shrink hm
          simp only [List.length_cons] at h1 h2 hs
          show (num, u) :: scanDurFuel f rest3 = (num, u) :: scanDurFuel f2' rest3
          rw [ih f2' rest3 (by omega) (by omega)]
        | none =>
          show scanDurFuel f tl = scanDurFuel f2' tl
          simp only [List.length_cons] at h1 h2
          exact ih f2' tl (by omega) (by omega)

/-- A condition on the head of the continuation: empty, or failing `p`. -/
def headFailsB (p : Char → Bool) : List Char → Bool
  | [] => true
  | c :: _ => !(p c)

theorem takeWhile_append_all {p : Char → Bool} {l1 l2 : List Char}
    (h1 : ∀ a ∈ l1, p a = true) (h2 : headFailsB p l2 = true) :
    (l1 ++ l2).takeWhile p = l1 ∧ (l1 ++ l2).dropWhile p = l2 := by
  induction l1 with
  | nil =>
    cases l2 with
    | nil => exact ⟨rfl, rfl⟩
    | cons c cs =>
      unfold headFailsB at h2
      simp only [Bool.not_eq_eq_eq_not, Bool.not_true] at h2
      simp [List.takeWhile_cons, List.dropWhile_cons, h2]
  | cons a as ih =>
    have ha := h1 a (List.mem_cons_self a as)
    obtain ⟨iht, ihd⟩ := ih (fun x hx => h1 x (List.mem_cons_of_mem a hx))
    simp only [List.cons_append, List.takeWhile_cons, List.dropWhile_cons, ha, if_true,
      iht, ihd, and_self]

theorem dropWhile_head_false {p : Char → Bool} {l : List Char}
    (h : headFailsB p l = true) : l.dropWhile p = l := by
  cases l with
  | nil => rfl
  | cons c cs =>
    unfold headFailsB at h
    simp only [Bool.not_eq_eq_eq_not, Bool.not_true] at h
    simp [List.dropWhile_cons, h]

theorem isJsSpace_of_digit {c : Char} (h : c.isDigit = true) : isJsSpace c = false := by
  have h1 : c ≠ ' ' := fun e => by rw [e] at h; exact absurd h (by decide)
  have h2 : c ≠ '\t' := fun e => by rw [e] at h; exact absurd h (by decide)
  have h3 : c ≠ '\n' := fun e => by rw [e] at h; exact absurd h (by decide)
  have h4 : c ≠ '\r' := fun e => by rw [e] at h; exact absurd h (by decide)
  have h5 : c ≠ '\x0b' := fun e => by rw [e] at h; exact absurd h (by decide)
  have h6 : c ≠ '\x0c' := fun e => by rw [e] at h; exact absurd h (by decide)
  unfold isJsSpace
  rw [beq_eq_false_iff_ne.mpr h1, beq_eq_false_iff_ne.mpr h2, beq_eq_false_iff_ne.mpr h3,
    beq_eq_false_iff_ne.mpr h4, beq_eq_false_iff_ne.mpr h5, beq_eq_false_iff_ne.mpr h6]
  rfl

theorem digit_ne_s {c : Char} (h : c.isDigit = true) : c ≠ 's' :=
  fun e => by rw [e] at h; exact absurd h (by decide)

theorem durDigitDot_of_digit {c : Char} (h : c.isDigit = true) :
    isDurDigitDot c = true := by
  unfold isDurDigitDot
  rw [h]
  rfl

theorem matchUnit_m {d : Char} {ds : List Char} (hd : d ≠ 's') :
    matchUnit ('m' :: d :: ds) = some (.m, d :: ds) := by
  have hstep : matchUnit ('m' :: d :: ds) = (match d :: ds with
      | 's' :: rest2 => some (DurUnit.ms, rest2)
      | _ => some (DurUnit.m, d :: ds)) := rfl
  rw [hstep]
  split
  · rename_i heq
    injection heq with h1
    exact absurd h1 hd
  · rfl

theorem matchUnit_render (u : DurUnit) (rest : List Char)
    (hrest : headFailsB Char.isDigit rest = false ∨ rest = []) :
    matchUnit (unitChars u ++ rest) = some (u, rest) := by
  cases u
  · rfl
  · rfl
  · show matchUnit ('m' :: rest) = some (.m, rest)
    cases rest with
    | nil => rfl
    | cons d ds =>
      rcases hrest with hrest | hrest
      · unfold headFailsB at hrest
        have hd2 : d.isDigit = true := by simpa using hrest
        exact matchUnit_m (digit_ne_s hd2)
      · exact absurd hrest (by simp)
  · rfl

/-- The continuation after a component: empty, or starting with a digit
(the next component's first integer digit). -/
def startsWithDigitOrNil (l : List Char) : Prop :=
  l = [] ∨ ∃ d ds, l = d :: ds ∧ d.isDigit = true

theorem takeWhile_all {p : Char → Bool} {l : List Char} (h : ∀ a ∈ l, p a = true) :
    l.takeWhile p = l ∧ l.dropWhile p = [] := by
  have := @takeWhile_append_all p l [] h rfl
  rwa [List.append_nil] at this

theorem numChars_all_digitdot (c : DurComponent) (hwf : c.WF) :
    ∀ ch ∈ c.numChars, isDurDigitDot ch = true := by
  obtain ⟨hne, hdig, hfrac⟩ := hwf
  intro ch hch
  unfold DurComponent.numChars at hch
  rw [List.mem_append] at hch
  rcases hch with hch | hch
  · exact durDigitDot_of_digit (hdig ch hch)
  · cases hf : c.fracDigits with
    | none =>
      rw [hf] at hch
      simp at hch
    | some f =>
      rw [hf] at hch
      rcases List.mem_cons.mp hch with rfl | hch'
      · rfl
      · exact durDigitDot_of_digit (hfrac f hf ch hch')

theorem unit_headFailsB (u : DurUnit) (rest : List Char) :
    headFailsB isDurDigitDot (unitChars u ++ rest) = true ∧
      headFailsB isJsSpace (unitChars u ++ rest) = true := by
  cases u <;> exact ⟨rfl, rfl⟩

theorem tryMatchAt_render (c : DurComponent) (rest : List Char) (hwf : c.WF)
    (hrest : startsWithDigitOrNil rest) :
    tryMatchAt (c.render ++ rest) = some (c.numChars, c.unit, rest) := by
  have hall := numChars_all_digitdot c hwf
  obtain ⟨hne, hdig, hfrac⟩ := hwf
  obtain ⟨d0, ds0, hint⟩ : ∃ d0 ds0, c.intDigits = d0 :: ds0 := by
    cases hi : c.intDigits with
    | nil => exact absurd hi hne
    | cons x xs => exact ⟨x, xs, rfl⟩
  have hassoc : c.render ++ rest = c.numChars ++ (unitChars c.unit ++ rest) := by
    unfold DurComponent.render
    rw [List.append_assoc]
  have hshape : c.numChars ++ (unitChars c.unit ++ rest)
      = d0 :: (ds0 ++ (match c.fracDigits with | none => [] | some f => '.' :: f)
          ++ (unitChars c.unit ++ rest)) := by
    unfold DurComponent.numChars
    rw [hint]
    simp
  obtain ⟨hfail1, hfail2⟩ := unit_headFailsB c.unit rest
  obtain ⟨htake, hdrop⟩ := takeWhile_append_all hall hfail1
  have hmu : matchUnit (unitChars c.unit ++ rest) = some (c.unit, rest) := by
    apply matchUnit_render
    rcases hrest with rfl | ⟨d, ds, rfl, hd⟩
    · exact Or.inr rfl
    · left
      show (!d.isDigit) = false
      rw [hd]
      rfl
  rw [hassoc, hshape]
  have hx : isDurDigitDot d0 = true :=
    durDigitDot_of_digit (hdig d0 (by rw [hint]; exact List.mem_cons_self _ _))
  simp only [tryMatchAt, hx, if_true]
  rw [← hshape, htake, hdrop, dropWhile_head_false hfail2, hmu]

theorem renderAll_cons (c : DurComponent) (cs : List DurComponent) :
    renderAll (c :: cs) = c.render ++ renderAll cs := by
  unfold renderAll
  simp

theorem renderAll_startsWithDigitOrNil (cs : List DurComponent)
    (hwf : ∀ c ∈ cs, c.WF) : startsWithDigitOrNil (renderAll cs) := by
  cases cs with
  | nil => exact Or.inl rfl
  | cons c cs' =>
    right
    obtain ⟨hne, hdig, hfrac⟩ := hwf c (List.mem_cons_self _ _)
    obtain ⟨d0, ds0, hint⟩ : ∃ d0 ds0, c.intDigits = d0 :: ds0 := by
      cases hi : c.intDigits with
      | nil => exact absurd hi hne
      | cons x xs => exact ⟨x, xs, rfl⟩
    refine ⟨d0, ds0 ++ (match c.fracDigits with | none => [] | some f => '.' :: f)
      ++ unitChars c.unit ++ renderAll cs', ?_, hdig d0 (by rw [hint]; simp)⟩
    rw [renderAll_cons]
    unfold DurComponent.render DurComponent.numChars
    rw [hint]
    simp

theorem scanDurFuel_renderAll (cs : List DurComponent) (hwf : ∀ c ∈ cs, c.WF) :
    ∀ fuel, (renderAll cs).length ≤ fuel →
      scanDurFuel fuel (renderAll cs) = cs.map (fun c => (c.numChars, c.unit)) := by
  induction cs with
  | nil =>
    intro fuel _
    show scanDurFuel fuel [] = []
    exact scanDurFuel_nil fuel
  | cons c cs' ih =>
    intro fuel hfuel
    have hwfc := hwf c (List.mem_cons_self _ _)
    have hwf' : ∀ x ∈ cs', x.WF := fun x hx => hwf x (List.mem_cons_of_mem c hx)
    have hrest := renderAll_startsWithDigitOrNil cs' hwf'
    have htry := tryMatchAt_render c (renderAll cs') hwfc hrest
    obtain ⟨hne, hdig, hfrac⟩ := hwfc
    obtain ⟨d0, ds0, hint⟩ : ∃ d0 ds0, c.intDigits = d0 :: ds0 := by
      cases hi : c.intDigits with
      | nil => exact absurd hi hne
      | cons x xs => exact ⟨x, xs, rfl⟩
    have hren : c.render ++ renderAll cs'
        = d0 :: (ds0 ++ (match c.fracDigits with | none => [] | some f => '.' :: f)
            ++ unitChars c.unit ++ renderAll cs') := by
      unfold DurComponent.render DurComponent.numChars
      rw [hint]
      simp
    rw [renderAll_cons] at hfuel ⊢
    have hrlen : 1 ≤ c.render.length := by
      unfold DurComponent.render DurComponent.numChars
      rw [hint]
      simp
    match fuel with
    | 0 =>
      rw [hren] at hfuel
      simp at hfuel
    | f + 1 =>
      have hlen2 : (renderAll cs').length ≤ f := by
        rw [List.length_append] at hfuel
        omega
      rw [hren]
      simp only [scanDurFuel]
      rw [← hren, htry]
      show (c.numChars, c.unit) :: scanDurFuel f (renderAll cs') = _
      rw [ih hwf' f hlen2]
      rfl

theorem parseFloatQ_numChars (c : DurComponent) (hwf : c.WF) :
    parseFloatQ c.numChars = some c.numValue := by
  obtain ⟨hne, hdig, hfrac⟩ := hwf
  unfold parseFloatQ DurComponent.numChars DurComponent.numValue
  cases hf : c.fracDigits with
  | none =>
    rw [List.append_nil]
    obtain ⟨ht, hd⟩ := takeWhile_all hdig
    rw [ht, hd]
    show (if c.intDigits = [] then none else some (digitsVal c.intDigits))
      = some (digitsVal c.intDigits + 0)
    rw [if_neg hne, add_zero]
  | some f =>
    obtain ⟨ht, hd⟩ := @takeWhile_append_all Char.isDigit c.intDigits ('.' :: f) hdig rfl
    rw [ht, hd]
    show (if c.intDigits = [] ∧ List.takeWhile Char.isDigit f = [] then none
        else some (digitsVal c.intDigits
          + digitsVal (List.takeWhile Char.isDigit f)
            / 10 ^ (List.takeWhile Char.isDigit f).length))
      = some (digitsVal c.intDigits + digitsVal f / 10 ^ f.length)
    obtain ⟨htf, -⟩ := takeWhile_all (hfrac f hf)
    rw [htf, if_neg (by simp [hne])]

theorem foldl_components (cs : List DurComponent) (hwf : ∀ c ∈ cs, c.WF) :
    ∀ acc : ℚ,
      (cs.map (fun c => (c.numChars, c.unit))).foldl
          (fun acc nu => match parseFloatQ nu.1 with
            | none => acc
            | some v => acc + v * unitFactorMs nu.2) acc
        = acc + (cs.map DurComponent.valueMs).sum := by
  induction cs with
  | nil =>
    intro acc
    simp
  | cons c cs' ih =>
    intro acc
    simp only [List.map_cons, List.foldl_cons]
    rw [parseFloatQ_numChars c (hwf c (List.mem_cons_self _ _))]
    show (cs'.map (fun c => (c.numChars, c.unit))).foldl _ (acc + c.numValue * unitFactorMs c.unit) = _
    rw [ih (fun x hx => hwf x (List.mem_cons_of_mem c hx))]
    show acc + c.numValue * unitFactorMs c.unit + (cs'.map DurComponent.valueMs).sum
      = acc + (DurComponent.valueMs c + (cs'.map DurComponent.valueMs).sum)
    unfold DurComponent.valueMs
    ring

theorem dropWhile_eq_self_of_none {p : Char → Bool} {l : List Char}
    (h : ∀ ch ∈ l, p ch = false) : l.dropWhile p = l := by
  cases l with
  | nil => rfl
  | cons c cs => simp [List.dropWhile_cons, h c (List.mem_cons_self c cs)]

theorem jsTrimChars_eq_self {l : List Char} (h : ∀ ch ∈ l, isJsSpace ch = false) :
    jsTrimChars l = l := by
  unfold jsTrimChars
  rw [dropWhile_eq_self_of_none h,
    dropWhile_eq_self_of_none (fun ch hch => h ch (by simpa using hch)),
    List.reverse_reverse]

theorem render_not_space (c : DurComponent) (hwf : c.WF) :
    ∀ ch ∈ c.render, isJsSpace ch = false := by
  obtain ⟨hne, hdig, hfrac⟩ := hwf
  intro ch hch
  unfold DurComponent.render DurComponent.numChars at hch
  simp only [List.append_assoc, List.mem_append] at hch
  rcases hch with hch | hch | hch
  · exact isJsSpace_of_digit (hdig ch hch)
  · cases hf : c.fracDigits with
    | none =>
      rw [hf] at hch
      simp at hch
    | some f =>
      rw [hf] at hch
      rcases List.mem_cons.mp hch with rfl | hch'
      · rfl
      · exact isJsSpace_of_digit (hfrac f hf ch hch')
  · cases hu : c.unit <;> rw [hu] at hch <;> simp [unitChars] at hch <;>
      rcases hch with rfl | rfl <;> rfl

theorem mem_dropWhile {p : Char → Bool} {l : List Char} {a : Char}
    (h : a ∈ l.dropWhile p) : a ∈ l := by
  induction l with
  | nil => simpa using h
  | cons c cs ih =>
    by_cases hp : p c
    · rw [List.dropWhile_cons, if_pos hp] at h
      exact List.mem_cons_of_mem c (ih h)
    · rw [List.dropWhile_cons, if_neg hp] at h
      exact h

theorem mem_of_mem_jsTrimChars {l : List Char} {ch : Char} (h : ch ∈ jsTrimChars l) :
    ch ∈ l := by
  unfold jsTrimChars at h
  rw [List.mem_reverse] at h
  have h2 := mem_dropWhile h
  rw [List.mem_reverse] at h2
  exact mem_dropWhile h2

theorem scanDurFuel_no_digitdot {l : List Char}
    (h : ∀ ch ∈ l, isDurDigitDot ch = false) : ∀ f, scanDurFuel f l = [] := by
  induction l with
  | nil => exact scanDurFuel_nil
  | cons c tl ih =>
    intro f
    match f with
    | 0 => rfl
    | f' + 1 =>
      have hc := h c (List.mem_cons_self c tl)
      have htry : tryMatchAt (c :: tl) = none := by
        simp [tryMatchAt, hc]
      show (match tryMatchAt (c :: tl) with
        | some (num, u, rest3) => (num, u) :: scanDurFuel f' rest3
        | none => scanDurFuel f' tl) = []
      rw [htry]
      exact ih (fun x hx => h x (List.mem_cons_of_mem c hx)) f'

theorem renderAll_ne_nil (c : DurComponent) (cs : List DurComponent) (hwf : c.WF) :
    renderAll (c :: cs) ≠ [] := by
  obtain ⟨hne, hdig, -⟩ := hwf
  obtain ⟨d0, ds0, hint⟩ : ∃ d0 ds0, c.intDigits = d0 :: ds0 := by
    cases hi : c.intDigits with
    | nil => exact absurd hi hne
    | cons x xs => exact ⟨x, xs, rfl⟩
  rw [renderAll_cons]
  unfold DurComponent.render DurComponent.numChars
  rw [hint]
  simp

/-- C9 amended: any nonempty concatenation of well-formed grammar
components (digits, an optional decimal part, a unit) parses to the
rounded sum of the components' millisecond values; and any string with no
digit and no dot yields `none`.  (The original claim's second half is
false: a dot-run before a unit, as in `".s"`, is matched by the scanner
and contributes 0, see the counterexample.) -/
theorem c9_duration_grammar_amended :
    (∀ (cs : List DurComponent), cs ≠ [] → (∀ c ∈ cs, c.WF) →
      parseDurationMs ⟨renderAll cs⟩
        = some (jsRound ((cs.map DurComponent.valueMs).sum))) ∧
      (∀ s : String, (∀ ch ∈ s.data, isDurDigitDot ch = false) →
        parseDurationMs s = none) := by
  constructor
  · intro cs hne hwf
    have hnospace : ∀ ch ∈ renderAll cs, isJsSpace ch = false := by
      intro ch hch
      unfold renderAll at hch
      rw [List.mem_flatten] at hch
      obtain ⟨seg, hseg, hchs⟩ := hch
      rw [List.mem_map] at hseg
      obtain ⟨c, hc, rfl⟩ := hseg
      exact render_not_space c (hwf c hc) ch hchs
    have htrim : jsStrTrim ⟨renderAll cs⟩ = ⟨renderAll cs⟩ := by
      unfold jsStrTrim
      show String.mk (jsTrimChars (renderAll cs)) = String.mk (renderAll cs)
      rw [jsTrimChars_eq_self hnospace]
    have hrne : renderAll cs ≠ [] := by
      cases cs with
      | nil => exact absurd rfl hne
      | cons c cs' => exact renderAll_ne_nil c cs' (hwf c (List.mem_cons_self _ _))
    unfold parseDurationMs
    rw [htrim]
    rw [if_neg (by
      intro hcontra
      exact hrne (by simpa using congrArg String.data hcontra))]
    have hscan : scanDur (String.mk (renderAll cs)).data
        = cs.map (fun c => (c.numChars, c.unit)) := by
      show scanDur (renderAll cs) = _
      unfold scanDur
      exact scanDurFuel_renderAll cs hwf _ le_rfl
    rw [hscan]
    rw [if_neg (by
      cases cs with
      | nil => exact absurd rfl hne
      | cons c cs' => simp)]
    rw [foldl_components cs hwf 0, zero_add]
  · intro s hnd
    unfold parseDurationMs
    by_cases hstr : jsStrTrim s = ""
    · rw [if_pos hstr]
    · rw [if_neg hstr]
      have hall : ∀ ch ∈ (jsStrTrim s).data, isDurDigitDot ch = false := by
        intro ch hch
        exact hnd ch (mem_of_mem_jsTrimChars hch)
      have hsc : scanDur (jsStrTrim s).data = [] :=
        scanDurFuel_no_digitdot hall _
      rw [hsc]
      rfl

/-- C9 counterexample: the string `".s"` contains no digit at all — hence
no component of the claimed grammar (digits with an optional decimal part
followed by a unit) — yet `parseDurationMs` returns `some 0` rather than
`none`, because the scanner's `[\d.]+` class accepts a bare dot-run. -/
theorem c9_counterexample :
    parseDurationMs ".s" = some 0 ∧ parseDurationMs ".s" ≠ none ∧
      ∀ ch ∈ (".s" : String).data, ch.isDigit = false := by
  have hmain : parseDurationMs ".s" = some 0 := by
    unfold parseDurationMs
    rw [if_neg (by decide)]
    rw [show scanDur (jsStrTrim ".s").data = [(['.'], DurUnit.s)] from rfl]
    simp only [List.isEmpty_cons, Bool.false_eq_true, if_false]
    rw [show List.foldl
        (fun acc nu => match parseFloatQ nu.1 with
          | none => acc
          | some v => acc + v * unitFactorMs nu.2) (0 : ℚ) [(['.'], DurUnit.s)]
      = (0 : ℚ) from by
        simp only [List.foldl_cons, List.foldl_nil]
        rw [show parseFloatQ ['.'] = none from rfl]]
    unfold jsRound
    norm_num
  exact ⟨hmain, by rw [hmain]; simp, by decide⟩

/-- The component `1.5s` of the grammar. -/
def compW : DurComponent := ⟨['1'], some ['5'], DurUnit.s⟩

/-- C9 witness: the amended theorem applied at the single component
`1.5s` (giving 1500 ms) and at the digit-and-dot-free string `"abc"`. -/
theorem c9_duration_grammar_amended_witness :
    parseDurationMs "1.5s" = some 1500 ∧ parseDurationMs "abc" = none := by
  constructor
  · have heq : ("1.5s" : String) = ⟨renderAll [compW]⟩ := by decide
    have hwf : ∀ c ∈ [compW], c.WF := by
      intro c hc
      rw [List.mem_singleton.mp hc]
      refine ⟨by decide, by decide, ?_⟩
      intro l hl ch hch
      injection hl with h
      subst h
      rw [List.mem_singleton.mp hch]
      decide
    rw [heq, c9_duration_grammar_amended.1 [compW] (by simp) hwf]
    have hv : (([compW].map DurComponent.valueMs).sum) = 1500 := by
      simp only [List.map_cons, List.map_nil, List.sum_cons, List.sum_nil, add_zero,
        DurComponent.valueMs, DurComponent.numValue, compW, unitFactorMs, digitsVal,
        List.foldl_cons, List.foldl_nil]
      norm_num [show ('1'.toNat - '0'.toNat : Nat) = 1 from by decide,
        show ('5'.toNat - '0'.toNat : Nat) = 5 from by decide]
    rw [hv]
    unfold jsRound
    norm_num
  · exact c9_duration_grammar_amended.2 "abc" (by decide)
